import Mathlib

/-
Shallow embedding of the transaction-processing-simulator core
(TransactionService, RulesEngine, BatchService, WebhookService) and proofs
about its lifecycle state machine, rule evaluation, batch creation and
webhook delivery.

Modelling conventions, noted once here:
- JS numbers that hold monetary amounts are modelled as rationals; integer
  counters (retryCount, maxRetries, batch sizes, webhook attempt numbers)
  are modelled as Nat.
- Date / timestamp fields (createdAt, updatedAt, completedAt, evaluatedAt,
  webhook log timestamps) carry no logic in the claims and are omitted from
  the embedded records.
- uuid generation is not modelled: embedded ids are plain strings and the
  create operations leave them empty; no claim depends on id values.
- a thrown JS Error is modelled as Except.error carrying the message string;
  because the source performs every store mutation only after its guard
  checks, an error leaves the embedded state unchanged by construction.
- the in-memory Map store keyed by transaction id is elided: the service
  operations are modelled per transaction, on a pair of the transaction and
  its status-history list, which is the data the claims quantify over. The
  not-found branches of the source are therefore not represented.
-/

/-! ## Transaction model (src/models/Transaction.ts) -/

inductive TransactionStatus where
  | PENDING
  | VALIDATING
  | PROCESSING
  | COMPLETED
  | FAILED
  | CANCELLED
  | REFUNDED
deriving DecidableEq, Repr

/-- String value of the TS enum member, as used in error messages. -/
def TransactionStatus.name : TransactionStatus → String
  | .PENDING => "PENDING"
  | .VALIDATING => "VALIDATING"
  | .PROCESSING => "PROCESSING"
  | .COMPLETED => "COMPLETED"
  | .FAILED => "FAILED"
  | .CANCELLED => "CANCELLED"
  | .REFUNDED => "REFUNDED"

inductive TransactionType where
  | PAYMENT
  | TRANSFER
  | WITHDRAWAL
  | DEPOSIT
  | REFUND
deriving DecidableEq, Repr

def TransactionType.name : TransactionType → String
  | .PAYMENT => "PAYMENT"
  | .TRANSFER => "TRANSFER"
  | .WITHDRAWAL => "WITHDRAWAL"
  | .DEPOSIT => "DEPOSIT"
  | .REFUND => "REFUND"

inductive TransactionPriority where
  | LOW
  | NORMAL
  | HIGH
  | URGENT
deriving DecidableEq, Repr

def TransactionPriority.name : TransactionPriority → String
  | .LOW => "LOW"
  | .NORMAL => "NORMAL"
  | .HIGH => "HIGH"
  | .URGENT => "URGENT"

/-- Embeds the Transaction interface; the TS field named type is embedded
as ttype because type is a Lean keyword. Date fields and the opaque
metadata record are omitted (see the conventions at the top). -/
structure Transaction where
  id : String
  ttype : TransactionType
  status : TransactionStatus
  priority : TransactionPriority
  amount : ℚ
  currency : String
  sourceAccount : String
  destinationAccount : Option String
  description : Option String
  retryCount : Nat
  maxRetries : Nat
  errorCode : Option String
  errorMessage : Option String
deriving DecidableEq, Repr

structure CreateTransactionRequest where
  rtype : TransactionType
  amount : ℚ
  currency : String
  sourceAccount : String
  destinationAccount : Option String
  description : Option String
  priority : Option TransactionPriority
deriving DecidableEq, Repr

structure StatusTransition where
  transactionId : String
  fromStatus : TransactionStatus
  toStatus : TransactionStatus
  reason : Option String
  triggeredBy : String
deriving DecidableEq, Repr

/-- Embeds VALID_STATUS_TRANSITIONS from src/models/Transaction.ts. -/
def VALID_STATUS_TRANSITIONS : TransactionStatus → List TransactionStatus
  | .PENDING => [.VALIDATING, .CANCELLED]
  | .VALIDATING => [.PROCESSING, .FAILED, .CANCELLED]
  | .PROCESSING => [.COMPLETED, .FAILED]
  | .COMPLETED => [.REFUNDED]
  | .FAILED => [.PENDING]
  | .CANCELLED => []
  | .REFUNDED => []

/-- Per-transaction service state: the stored transaction together with its
status-history list (the statusHistory map entry for its id). -/
abbrev TxState : Type := Transaction × List StatusTransition

/-! ## TransactionService (src/services/TransactionService.ts) -/

/-- Embeds TransactionService.createTransaction. The JS guard
(!request.amount || request.amount <= 0) collapses to amount <= 0 over the
rational model (0 is the only falsy number there). -/
def createTransaction (request : CreateTransactionRequest) : Except String Transaction :=
  if request.amount ≤ 0 then
    .error "Amount must be greater than 0"
  else if request.currency = "" then
    .error "Currency is required"
  else if request.sourceAccount = "" then
    .error "Source account is required"
  else
    .ok { id := ""
          ttype := request.rtype
          status := .PENDING
          priority := request.priority.getD .NORMAL
          amount := request.amount
          currency := request.currency.toUpper
          sourceAccount := request.sourceAccount
          destinationAccount := request.destinationAccount
          description := request.description
          retryCount := 0
          maxRetries := 3
          errorCode := none
          errorMessage := none }

/-- Embeds TransactionService.updateStatus, past its store lookup. -/
def updateStatus (st : TxState) (newStatus : TransactionStatus)
    (triggeredBy : String) (reason : Option String) : Except String TxState :=
  let currentStatus := st.1.status
  let validTransitions := VALID_STATUS_TRANSITIONS currentStatus
  if validTransitions.contains newStatus then
    let transition : StatusTransition :=
      { transactionId := st.1.id
        fromStatus := currentStatus
        toStatus := newStatus
        reason := reason
        triggeredBy := triggeredBy }
    .ok ({ st.1 with status := newStatus }, st.2 ++ [transition])
  else
    .error ("Invalid status transition from " ++ currentStatus.name ++
      " to " ++ newStatus.name)

/-- Embeds TransactionService.cancelTransaction, past its store lookup. -/
def cancelTransaction (st : TxState) (reason : Option String) : Except String TxState :=
  if st.1.status = .COMPLETED then
    .error "Cannot cancel a completed transaction. Use refund instead."
  else if st.1.status = .CANCELLED then
    .error "Transaction is already cancelled"
  else
    updateStatus st .CANCELLED "user" (some (reason.getD "Cancelled by user"))

/-- Embeds TransactionService.refundTransaction, past its store lookup. -/
def refundTransaction (st : TxState) (reason : Option String) : Except String TxState :=
  if st.1.status ≠ .COMPLETED then
    .error "Only completed transactions can be refunded"
  else
    updateStatus st .REFUNDED "user" (some (reason.getD "Refunded by user"))

/-! ## Rules model (src/models/Rule.ts) -/

inductive RuleSeverity where
  | INFO
  | WARNING
  | ERROR
  | CRITICAL
deriving DecidableEq, Repr

inductive RuleAction where
  | ALLOW
  | DENY
  | FLAG
  | REQUIRE_APPROVAL
deriving DecidableEq, Repr

inductive RuleConditionType where
  | AMOUNT_THRESHOLD
  | TRANSACTION_TYPE
  | CURRENCY
  | ACCOUNT_PATTERN
  | TIME_WINDOW
  | FREQUENCY
  | COMPOSITE
deriving DecidableEq, Repr

/-- Operator vocabulary of RuleCondition. -/
inductive CondOp where
  | EQ
  | NEQ
  | GT
  | GTE
  | LT
  | LTE
  | IN
  | NOT_IN
  | MATCHES
  | AND
  | OR
deriving DecidableEq, Repr

/-- Field names of keyof Transaction, usable in rule conditions. -/
inductive TxField where
  | id
  | ttype
  | status
  | priority
  | amount
  | currency
  | sourceAccount
  | destinationAccount
  | description
  | metadata
  | createdAt
  | updatedAt
  | completedAt
  | errorCode
  | errorMessage
  | retryCount
  | maxRetries
deriving DecidableEq, Repr

/-- Dynamic JS values as they occur in transaction fields and rule condition
values: numbers, strings, arrays of values, undefined, and an opaque
constructor for the non-primitive values a transaction can hold (Date
objects and the metadata record), whose comparisons with rule values coming
from JSON are reference comparisons that never succeed. -/
inductive JValue where
  | num (q : ℚ)
  | str (s : String)
  | arr (xs : List JValue)
  | undef
  | other
deriving Repr

/-- Strict equality (JS ===) on the modelled values. Arrays and opaque
objects compare by reference in JS; a rule value deserialized from JSON is
never reference-identical to a transaction field, so those cases are false. -/
def jsEq : JValue → JValue → Bool
  | .num a, .num b => a == b
  | .str a, .str b => a == b
  | .undef, .undef => true
  | _, _ => false

/-- Field access transaction[field] used by the rule engine. Enum-typed
fields carry their TS string enum values. Date fields and metadata are
opaque objects (JValue.other). -/
def getField (tx : Transaction) : TxField → JValue
  | .id => .str tx.id
  | .ttype => .str tx.ttype.name
  | .status => .str tx.status.name
  | .priority => .str tx.priority.name
  | .amount => .num tx.amount
  | .currency => .str tx.currency
  | .sourceAccount => .str tx.sourceAccount
  | .destinationAccount => (tx.destinationAccount.map .str).getD .undef
  | .description => (tx.description.map .str).getD .undef
  | .metadata => .other
  | .createdAt => .other
  | .updatedAt => .other
  | .completedAt => .other
  | .errorCode => (tx.errorCode.map .str).getD .undef
  | .errorMessage => (tx.errorMessage.map .str).getD .undef
  | .retryCount => .num tx.retryCount
  | .maxRetries => .num tx.maxRetries

/-- Embeds the condition tree of src/models/Rule.ts: operator, comparison
value, optional field, optional children list. -/
inductive RuleCondition where
  | mk (ctype : RuleConditionType) (operator : CondOp) (value : JValue)
      (field : Option TxField) (children : Option (List RuleCondition))

/-- Models the JS RegExp(value).test(fieldValue) of the MATCHES operator.
Modelled from the spec: regular-expression matching is an external facility
(the JS RegExp engine), no claim exercises MATCHES, and this model fixes its
verdict to false. -/
def regexpTest (pat : String) (s : String) : Bool :=
  let _ := pat
  let _ := s
  false

/-- Numeric comparison helper: the source guards each of GT/GTE/LT/LTE with
typeof fieldValue === number, and the rule value under comparison is numeric
in every seeded rule; JS coercion of non-numeric comparison values (for
example numeric strings) is not modelled and such comparisons are false
here, as they are in JS for every value the repository constructs. -/
def numCompare (cmp : ℚ → ℚ → Bool) : JValue → JValue → Bool
  | .num a, .num b => cmp a b
  | _, _ => false

/-- Leaf-operator evaluation: the switch statement of
RulesEngine.evaluateCondition, applied to the resolved field value. AND and
OR reaching this switch hit its default branch and yield false. -/
def evalLeaf (op : CondOp) (value : JValue) (fieldValue : JValue) : Bool :=
  match op with
  | .EQ => jsEq fieldValue value
  | .NEQ => !jsEq fieldValue value
  | .GT => numCompare (fun a b => b < a) fieldValue value
  | .GTE => numCompare (fun a b => b ≤ a) fieldValue value
  | .LT => numCompare (fun a b => a < b) fieldValue value
  | .LTE => numCompare (fun a b => a ≤ b) fieldValue value
  | .IN =>
    match value with
    | .arr xs => xs.any (fun v => jsEq v fieldValue)
    | _ => false
  | .NOT_IN =>
    match value with
    | .arr xs => !xs.any (fun v => jsEq v fieldValue)
    | _ => false
  | .MATCHES =>
    match fieldValue, value with
    | .str s, .str pat => regexpTest pat s
    | _, _ => false
  | .AND => false
  | .OR => false

mutual

/-- Embeds RulesEngine.evaluateCondition. A present children list (even an
empty one is truthy in JS) with operator AND or OR is evaluated as a
composite; everything else resolves the named field, returning false when no
field is named, and applies the leaf operator switch. -/
def evaluateCondition (tx : Transaction) : RuleCondition → Bool
  | .mk _ .AND _ _ (some cs) => condChildrenAll tx cs
  | .mk _ .OR _ _ (some cs) => condChildrenAny tx cs
  | .mk _ op value field _ =>
    match field with
    | none => false
    | some f => evalLeaf op value (getField tx f)

/-- children.every of the composite AND branch. -/
def condChildrenAll (tx : Transaction) : List RuleCondition → Bool
  | [] => true
  | c :: cs => evaluateCondition tx c && condChildrenAll tx cs

/-- children.some of the composite OR branch. -/
def condChildrenAny (tx : Transaction) : List RuleCondition → Bool
  | [] => false
  | c :: cs => evaluateCondition tx c || condChildrenAny tx cs

end

structure Rule where
  id : String
  name : String
  description : String
  enabled : Bool
  priority : Int
  condition : RuleCondition
  action : RuleAction
  severity : RuleSeverity

structure RuleEvaluationResult where
  ruleId : String
  ruleName : String
  passed : Bool
  action : RuleAction
  severity : RuleSeverity
  message : String
deriving DecidableEq, Repr

structure RulesEngineConfig where
  stopOnFirstDeny : Bool
  logAllEvaluations : Bool
  defaultAction : RuleAction
deriving DecidableEq, Repr

/-- Default configuration of the rules engine (src/services/RulesEngine.ts). -/
def defaultConfig : RulesEngineConfig :=
  { stopOnFirstDeny := true, logAllEvaluations := true, defaultAction := .ALLOW }

/-- Embeds RulesEngine.evaluateRule: ALLOW rules pass exactly when the
condition holds; DENY, FLAG and REQUIRE_APPROVAL rules pass exactly when it
does not; the reported action is the rule action when the condition was met
and ALLOW otherwise. -/
def evaluateRule (rule : Rule) (tx : Transaction) : RuleEvaluationResult :=
  let conditionMet := evaluateCondition tx rule.condition
  if rule.action = .ALLOW then
    { ruleId := rule.id
      ruleName := rule.name
      passed := conditionMet
      action := if conditionMet then rule.action else .ALLOW
      severity := rule.severity
      message :=
        if conditionMet then "Transaction passed rule: " ++ rule.name
        else "Transaction failed rule: " ++ rule.name }
  else
    { ruleId := rule.id
      ruleName := rule.name
      passed := !conditionMet
      action := if conditionMet then rule.action else .ALLOW
      severity := rule.severity
      message :=
        if conditionMet then "Rule triggered: " ++ rule.name ++ " - " ++ rule.description
        else "Transaction passed rule check: " ++ rule.name }

/-- Stable insertion into a priority-ascending list: the inserted rule goes
after every rule of lower or equal priority, as a stable ascending sort
places it. -/
def insertByPriority (r : Rule) : List Rule → List Rule
  | [] => [r]
  | x :: xs =>
    if x.priority ≤ r.priority then x :: insertByPriority r xs
    else r :: x :: xs

/-- Stable ascending sort by priority, modelling the JS stable
Array.prototype.sort with comparator (a, b) => a.priority - b.priority over
the insertion-ordered Map values. -/
def sortRules (rs : List Rule) : List Rule :=
  rs.foldl (fun acc r => insertByPriority r acc) []

/-- Return value of RulesEngine.evaluateTransaction. -/
structure EvalOutcome where
  allowed : Bool
  results : List RuleEvaluationResult
  flagged : Bool
  requiresApproval : Bool
  denyReason : Option String
deriving DecidableEq, Repr

/-- The for-loop body of RulesEngine.evaluateTransaction, carried over the
remaining rules with the mutable locals (allowed, flagged, requiresApproval,
denyReason, results) packed in the accumulator. A triggered DENY flips
allowed, records the deny reason and, under stopOnFirstDeny, returns
immediately; FLAG and REQUIRE_APPROVAL set their flags and continue; a
non-passing result whose reported action is ALLOW matches no switch case and
changes nothing. -/
def evalLoop (cfg : RulesEngineConfig) (tx : Transaction) :
    List Rule → EvalOutcome → EvalOutcome
  | [], acc => acc
  | rule :: rest, acc =>
    let result := evaluateRule rule tx
    let acc := { acc with results := acc.results ++ [result] }
    if result.passed then
      evalLoop cfg tx rest acc
    else
      match result.action with
      | .DENY =>
        let acc := { acc with allowed := false, denyReason := some result.message }
        if cfg.stopOnFirstDeny then acc else evalLoop cfg tx rest acc
      | .FLAG => evalLoop cfg tx rest { acc with flagged := true }
      | .REQUIRE_APPROVAL => evalLoop cfg tx rest { acc with requiresApproval := true }
      | .ALLOW => evalLoop cfg tx rest acc

/-- Embeds RulesEngine.evaluateTransaction over an explicit rule list (the
insertion-ordered values of the rules Map): enabled rules are selected,
stably sorted ascending by priority, and folded through the evaluation
loop starting from allowed = true. -/
def evaluateTransaction (cfg : RulesEngineConfig) (rules : List Rule)
    (tx : Transaction) : EvalOutcome :=
  let activeRules := sortRules (rules.filter (fun r => r.enabled))
  evalLoop cfg tx activeRules
    { allowed := true, results := [], flagged := false,
      requiresApproval := false, denyReason := none }

/-! ## Default rules (src/models/Rule.ts DEFAULT_RULES), in array order.
The uuids assigned at initialization are modelled as fixed strings; no
claim depends on rule ids. -/

def highAmountThresholdRule : Rule :=
  { id := "default-flag-high-amount"
    name := "High Amount Threshold"
    description := "Flag transactions over $10,000"
    enabled := true
    priority := 1
    condition := .mk .AMOUNT_THRESHOLD .GT (.num 10000) (some .amount) none
    action := .FLAG
    severity := .WARNING }

def veryHighAmountBlockRule : Rule :=
  { id := "default-block-very-high-amount"
    name := "Very High Amount Block"
    description := "Block transactions over $100,000"
    enabled := true
    priority := 0
    condition := .mk .AMOUNT_THRESHOLD .GT (.num 100000) (some .amount) none
    action := .DENY
    severity := .CRITICAL }

def minimumAmountRule : Rule :=
  { id := "default-minimum-amount"
    name := "Minimum Amount"
    description := "Reject transactions below $0.01"
    enabled := true
    priority := 0
    condition := .mk .AMOUNT_THRESHOLD .LT (.num (1 / 100)) (some .amount) none
    action := .DENY
    severity := .ERROR }

def supportedCurrenciesRule : Rule :=
  { id := "default-supported-currencies"
    name := "Supported Currencies"
    description := "Only allow USD, EUR, GBP currencies"
    enabled := true
    priority := 2
    condition := .mk .CURRENCY .IN
      (.arr [.str "USD", .str "EUR", .str "GBP"]) (some .currency) none
    action := .ALLOW
    severity := .INFO }

/-- DEFAULT_RULES in its array order, which is the insertion order of the
rules Map after initializeDefaultRules. -/
def defaultRulesList : List Rule :=
  [highAmountThresholdRule, veryHighAmountBlockRule,
   minimumAmountRule, supportedCurrenciesRule]

/-! ## Processing and retry (src/services/TransactionService.ts) -/

/-- Error code constants used by the embedded operations
(src/models/Error.ts). -/
def RULE_VIOLATION : String := "E3001"

def PROCESSING_FAILED : String := "E2005"

/-- Embeds TransactionService.processTransaction, past its store lookup.
The rule set and engine configuration are explicit parameters (the source
reads them from the RulesEngine singleton), and the draw Math.random() > 0.1
is the explicit Boolean parameter success; the simulated latency has no
observable effect on the state and is dropped. Rules are evaluated on the
transaction object after the move to VALIDATING, as in the source, where
updateStatus mutates the very object previously fetched. -/
def processTransaction (cfg : RulesEngineConfig) (rules : List Rule)
    (success : Bool) (st : TxState) : Except String TxState := do
  let st ← updateStatus st .VALIDATING "system" (some "Starting validation")
  let evaluation := evaluateTransaction cfg rules st.1
  if !evaluation.allowed then
    let st ← updateStatus st .FAILED "rules-engine"
      (some (evaluation.denyReason.getD "Rule validation failed"))
    return ({ st.1 with
                errorCode := some RULE_VIOLATION
                errorMessage := evaluation.denyReason }, st.2)
  else
    let st ← updateStatus st .PROCESSING "system" (some "Processing transaction")
    if success then
      let st ← updateStatus st .COMPLETED "system"
        (some "Transaction completed successfully")
      return st
    else
      let st ← updateStatus st .FAILED "system" (some "Processing failed")
      return ({ st.1 with
                  errorCode := some PROCESSING_FAILED
                  errorMessage := some "Simulated processing failure" }, st.2)

/-- Embeds TransactionService.retryTransaction, past its store lookup. -/
def retryTransaction (cfg : RulesEngineConfig) (rules : List Rule)
    (success : Bool) (st : TxState) : Except String TxState :=
  if st.1.status ≠ .FAILED then
    .error "Only failed transactions can be retried"
  else if st.1.retryCount ≥ st.1.maxRetries then
    .error ("Maximum retry attempts (" ++ toString st.1.maxRetries ++ ") exceeded")
  else do
    let tx := { st.1 with
                  retryCount := st.1.retryCount + 1
                  errorCode := none
                  errorMessage := none }
    let st ← updateStatus (tx, st.2) .PENDING "retry-system" (some "Retry initiated")
    processTransaction cfg rules success st

/-! ## BatchService (src/services/BatchService.ts) -/

structure BatchFailureEntry where
  index : Nat
  request : CreateTransactionRequest
  error : String
deriving DecidableEq, Repr

structure BatchSummary where
  total : Nat
  success : Nat
  failed : Nat
  successRate : String
deriving DecidableEq, Repr

structure BatchCreateResult where
  successful : List Transaction
  failed : List BatchFailureEntry
  summary : BatchSummary
deriving DecidableEq, Repr

/-! ### Binary64 model of the successRate computation
The source computes ((successful.length / requests.length) * 100).toFixed(1)
in IEEE-754 binary64 arithmetic. Both operations round once to the nearest
double (ties to even); toFixed(1) then picks the integer t minimizing the
distance of t / 10 to the exact value of that double, taking the larger t
on a tie (ECMA-262 Number.prototype.toFixed). The model below carries the
exact rational value of every intermediate double as an integer significand
and power-of-two exponent, so it reproduces the program output bit for bit
on the nonnegative normal range these ratios live in; the only inputs
outside the model are the empty batch (0 / 0 is NaN, excluded by the
theorem hypotheses) and magnitudes beyond the normal double range, which a
ratio of list lengths never reaches. -/

/-- Fueled floor base-two logarithm (structural, so it computes in the
kernel; the fuel n is always enough for input n). -/
def log2Fuel : Nat → Nat → Nat
  | 0, _ => 0
  | fuel + 1, n => if 2 ≤ n then log2Fuel fuel (n / 2) + 1 else 0

def natLog2 (n : Nat) : Nat := log2Fuel n n

/-- Decides 2 ^ d <= a / b for an integer exponent d and b > 0. -/
def twoPowLE (d : Int) (a b : Nat) : Bool :=
  if 0 ≤ d then b * 2 ^ d.toNat ≤ a else b ≤ a * 2 ^ (-d).toNat

/-- Floor base-two logarithm of the positive fraction a / b. -/
def ratLog2 (a b : Nat) : Int :=
  let d : Int := (natLog2 a : Int) - (natLog2 b : Int)
  if twoPowLE d a b then d else d - 1

/-- Nearest integer to A / B, ties to even (the IEEE significand
rounding), with B > 0. -/
def mantissaRound (A B : Nat) : Nat :=
  let q0 := A / B
  let r2 := 2 * (A % B)
  if B < r2 then q0 + 1
  else if r2 < B then q0
  else q0 + q0 % 2

/-- The binary64 double nearest the nonnegative fraction a / b, as a
significand and exponent pair (m, e) of exact value m * 2 ^ e: the
significand is a / b scaled into the window starting at 2 ^ 52 and rounded
to nearest, ties to even. -/
def roundToDouble (a b : Nat) : Nat × Int :=
  if a = 0 then (0, 0)
  else
    let e : Int := ratLog2 a b - 52
    if 0 ≤ e then (mantissaRound a (b * 2 ^ e.toNat), e)
    else (mantissaRound (a * 2 ^ (-e).toNat) b, e)

/-- Numerator of a significand-exponent pair as a plain fraction. -/
def dNum (d : Nat × Int) : Nat :=
  if 0 ≤ d.2 then d.1 * 2 ^ d.2.toNat else d.1

/-- Denominator of a significand-exponent pair as a plain fraction. -/
def dDen (d : Nat × Int) : Nat :=
  if 0 ≤ d.2 then 1 else 2 ^ (-d.2).toNat

/-- Exact rational value of a significand-exponent pair. -/
def dVal (d : Nat × Int) : ℚ :=
  (dNum d : ℚ) / (dDen d : ℚ)

/-- The double the source computes as (s / n) * 100: the division rounds
once, the multiplication by 100 rounds once. -/
def jsPercent (s n : Nat) : Nat × Int :=
  let d1 := roundToDouble s n
  roundToDouble (dNum d1 * 100) (dDen d1)

/-- Number.prototype.toFixed(1) of the nonnegative double x = m * 2 ^ e:
the integer t minimizing the distance of t / 10 to x, the larger t on a
tie, that is the floor of 10 x + 1 / 2 (exact, since the half is exactly
representable against the power-of-two denominator). -/
def jsPercentTenths (s n : Nat) : Nat :=
  let d := jsPercent s n
  if 0 ≤ d.2 then 10 * dNum d
  else (10 * d.1 + 2 ^ (-d.2).toNat / 2) / 2 ^ (-d.2).toNat

/-- Renders the summary successRate string, template
((s / n) * 100).toFixed(1) followed by a percent sign, over the binary64
model above. -/
def toFixed1Percent (s n : Nat) : String :=
  let t := jsPercentTenths s n
  toString (t / 10) ++ "." ++ toString (t % 10) ++ "%"

/-- Per-item try/catch of BatchService.batchCreate: item i either creates a
transaction or contributes a failure entry echoing the index, the original
request and the thrown message. The async map settles item results in index
order (each creation body runs synchronously when its promise is built), so
the collection is modelled as a left-to-right pass. -/
def batchCreateItems : Nat → List CreateTransactionRequest →
    List Transaction × List BatchFailureEntry
  | _, [] => ([], [])
  | i, request :: rest =>
    let tail := batchCreateItems (i + 1) rest
    match createTransaction request with
    | .ok tx => (tx :: tail.1, tail.2)
    | .error e => (tail.1, { index := i, request := request, error := e } :: tail.2)

/-- Embeds BatchService.batchCreate with the configured maximum batch size
as an explicit parameter (default 100 in the source). -/
def batchCreate (maxBatchSize : Nat) (requests : List CreateTransactionRequest) :
    Except String BatchCreateResult :=
  if requests.length > maxBatchSize then
    .error ("Batch size exceeds maximum of " ++ toString maxBatchSize)
  else
    let items := batchCreateItems 0 requests
    .ok { successful := items.1
          failed := items.2
          summary :=
            { total := requests.length
              success := items.1.length
              failed := items.2.length
              successRate := toFixed1Percent items.1.length requests.length } }

/-! ## WebhookService (src/services/WebhookService.ts) -/

structure Webhook where
  id : String
  name : String
  url : String
  secret : Option String
  events : List String
  isActive : Bool
  retryCount : Nat
  maxRetries : Nat
deriving DecidableEq, Repr

/-- One delivery attempt of sendWebhook: the attempt number (the source
starts at 1), the success flag of the WebhookLog written for it, and the
backoff delay in milliseconds of the retry it schedules, if it schedules
one (Math.pow(2, attempt) * 1000). -/
structure WebhookAttempt where
  attempt : Nat
  logSuccess : Bool
  retryDelayMs : Option Nat
deriving DecidableEq, Repr

/-- Embeds the recursion of WebhookService.sendWebhook as the trace of its
delivery attempts: the outcome of the HTTP POST at each attempt is the
oracle deliverOk; a successful attempt logs success and stops; a failed one
logs failure and schedules attempt + 1 after 2 ^ attempt seconds exactly
when attempt < maxRetries. Each trace element is one WebhookLog entry. -/
def sendWebhookTrace (deliverOk : Nat → Bool) (maxRetries : Nat)
    (attempt : Nat) : List WebhookAttempt :=
  if deliverOk attempt then
    [{ attempt := attempt, logSuccess := true, retryDelayMs := none }]
  else if h : attempt < maxRetries then
    { attempt := attempt, logSuccess := false,
      retryDelayMs := some (2 ^ attempt * 1000) } ::
      sendWebhookTrace deliverOk maxRetries (attempt + 1)
  else
    [{ attempt := attempt, logSuccess := false, retryDelayMs := none }]
termination_by maxRetries - attempt

/-- Minimal JSON string escaping of JSON.stringify for the characters that
require it in every envelope the service builds (quote and backslash;
control characters do not occur in event names or ISO timestamps). -/
def jsonEscapeChar (c : Char) : String :=
  if c = '"' then "\\\""
  else if c = '\\' then "\\\\"
  else String.singleton c

def jsonString (s : String) : String :=
  "\"" ++ String.join (s.data.map jsonEscapeChar) ++ "\""

/-- JSON.stringify of the envelope object literal, whose keys serialize in
insertion order: event, timestamp, payload. The payload is carried as its
serialized JSON text. -/
def serializeEnvelope (event timestamp payloadJson : String) : String :=
  "\x7b\"event\":" ++ jsonString event ++
    ",\"timestamp\":" ++ jsonString timestamp ++
    ",\"payload\":" ++ payloadJson ++ "\x7d"

/-! ### HMAC-SHA256 (the crypto.createHmac call of generateSignature)
Modelled from the spec: the source delegates to the Node crypto library;
the standard SHA-256 and HMAC constructions are embedded here over byte
lists (bytes are Nat below 256, words are Nat reduced modulo 2 ^ 32). -/

def w32 : Nat := 4294967296

def rotr32 (n x : Nat) : Nat :=
  ((x >>> n) ||| (x <<< (32 - n))) % w32

def bigSigma0 (x : Nat) : Nat :=
  rotr32 2 x ^^^ rotr32 13 x ^^^ rotr32 22 x

def bigSigma1 (x : Nat) : Nat :=
  rotr32 6 x ^^^ rotr32 11 x ^^^ rotr32 25 x

def smallSigma0 (x : Nat) : Nat :=
  rotr32 7 x ^^^ rotr32 18 x ^^^ (x >>> 3)

def smallSigma1 (x : Nat) : Nat :=
  rotr32 17 x ^^^ rotr32 19 x ^^^ (x >>> 10)

def chFn (x y z : Nat) : Nat :=
  (x &&& y) ^^^ ((x ^^^ (w32 - 1)) &&& z)

def majFn (x y z : Nat) : Nat :=
  (x &&& y) ^^^ (x &&& z) ^^^ (y &&& z)

/-- Bisection step for the integer cube root, keeping the invariant that
the cube of lo is at most n while the cube of hi exceeds it. -/
def icbrtGo (n : Nat) : Nat → Nat → Nat → Nat
  | 0, lo, _ => lo
  | fuel + 1, lo, hi =>
    let mid := (lo + hi) / 2
    if mid = lo then lo
    else if mid ^ 3 ≤ n then icbrtGo n fuel mid hi
    else icbrtGo n fuel lo mid

/-- Integer cube root: the largest r with r ^ 3 at most n, for the inputs
below 2 ^ 200 used here. -/
def icbrt (n : Nat) : Nat :=
  icbrtGo n 200 0 (n + 1)

/-- The first 64 primes, from which FIPS 180-4 derives the SHA-256 round
and initialization constants. -/
def sha256Primes : List Nat :=
  [2, 3, 5, 7, 11, 13, 17, 19, 23, 29, 31, 37, 41, 43, 47, 53,
   59, 61, 67, 71, 73, 79, 83, 89, 97, 101, 103, 107, 109, 113, 127, 131,
   137, 139, 149, 151, 157, 163, 167, 173, 179, 181, 191, 193, 197, 199,
   211, 223, 227, 229, 233, 239, 241, 251, 257, 263, 269, 271, 277, 281,
   283, 293, 307, 311]

/-- The 64 SHA-256 round constants: the first 32 bits of the fractional
parts of the cube roots of the first 64 primes. -/
def sha256K : List Nat :=
  sha256Primes.map (fun p => icbrt (p * 2 ^ 96) % w32)

/-- The eight SHA-256 initial hash values: the first 32 bits of the
fractional parts of the square roots of the first 8 primes. -/
def sha256H0 : List Nat :=
  (sha256Primes.take 8).map (fun p => Nat.sqrt (p * 2 ^ 64) % w32)

/-- Big-endian packing of consecutive byte quadruples into 32-bit words. -/
def bytesToWords : List Nat → List Nat
  | b0 :: b1 :: b2 :: b3 :: rest =>
    (((b0 * 256 + b1) * 256 + b2) * 256 + b3) :: bytesToWords rest
  | _ => []

/-- Big-endian bytes of a value, most significant first, n bytes wide. -/
def natToBytesBE (n : Nat) (v : Nat) : List Nat :=
  match n with
  | 0 => []
  | m + 1 => natToBytesBE m (v / 256) ++ [v % 256]

/-- SHA-256 message padding: append 0x80, zero bytes to 56 mod 64, and the
64-bit big-endian bit length. -/
def sha256Pad (msg : List Nat) : List Nat :=
  msg ++ [0x80] ++ List.replicate ((119 - msg.length % 64) % 64) 0 ++
    natToBytesBE 8 (msg.length * 8)

/-- Splits the padded message into 64-byte blocks. -/
def chunks64 : List Nat → List (List Nat)
  | [] => []
  | b :: bs => ((b :: bs).take 64) :: chunks64 ((b :: bs).drop 64)
termination_by l => l.length
decreasing_by simp; omega

/-- Extends the 16 block words to the 64-word message schedule. -/
def sha256Schedule (ws : List Nat) : List Nat :=
  (List.range 48).foldl
    (fun acc _ =>
      let n := acc.length
      acc ++ [(smallSigma1 (acc.getD (n - 2) 0) + acc.getD (n - 7) 0 +
        smallSigma0 (acc.getD (n - 15) 0) + acc.getD (n - 16) 0) % w32])
    ws

/-- One round of the SHA-256 compression main loop. -/
def sha256Round (kw : Nat × Nat) (st : List Nat) : List Nat :=
  let a := st.getD 0 0
  let b := st.getD 1 0
  let c := st.getD 2 0
  let d := st.getD 3 0
  let e := st.getD 4 0
  let f := st.getD 5 0
  let g := st.getD 6 0
  let hh := st.getD 7 0
  let t1 := (hh + bigSigma1 e + chFn e f g + kw.1 + kw.2) % w32
  let t2 := (bigSigma0 a + majFn a b c) % w32
  [(t1 + t2) % w32, a, b, c, (d + t1) % w32, e, f, g]

/-- SHA-256 compression of one 64-byte block into the running hash. -/
def sha256Compress (h : List Nat) (block : List Nat) : List Nat :=
  let ws := sha256Schedule (bytesToWords block)
  let final := (sha256K.zip ws).foldl (fun st kw => sha256Round kw st) h
  (h.zip final).map (fun p => (p.1 + p.2) % w32)

/-- SHA-256 digest of a byte list, as bytes. -/
def sha256 (msg : List Nat) : List Nat :=
  let hh := (chunks64 (sha256Pad msg)).foldl sha256Compress sha256H0
  hh.foldr (fun w acc => natToBytesBE 4 w ++ acc) []

/-- HMAC-SHA256 over byte lists, block size 64. -/
def hmacSha256 (key msg : List Nat) : List Nat :=
  let key0 := if key.length > 64 then sha256 key else key
  let keyB := key0 ++ List.replicate (64 - key0.length) 0
  let ipad := keyB.map (fun b => b ^^^ 0x36)
  let opad := keyB.map (fun b => b ^^^ 0x5c)
  sha256 (opad ++ sha256 (ipad ++ msg))

def hexDigitChar (n : Nat) : Char :=
  if n < 10 then Char.ofNat (48 + n) else Char.ofNat (87 + n)

def byteToHex (b : Nat) : String :=
  String.singleton (hexDigitChar (b / 16)) ++ String.singleton (hexDigitChar (b % 16))

def bytesToHex (bs : List Nat) : String :=
  String.join (bs.map byteToHex)

/-- Byte encoding of a string. The envelopes and secrets the service signs
are ASCII (JSON.stringify escapes leave ASCII input ASCII), where UTF-8
bytes coincide with the code points listed here. -/
def strBytes (s : String) : List Nat :=
  s.data.map Char.toNat

/-- Embeds WebhookService.generateSignature:
crypto.createHmac(sha256, secret).update(payload).digest(hex). -/
def generateSignature (payload : String) (secret : String) : String :=
  bytesToHex (hmacSha256 (strBytes secret) (strBytes payload))

/-- Header construction of WebhookService.sendWebhook: the base headers,
plus X-Webhook-Signature over the serialized envelope when the webhook has
a configured secret. -/
def webhookHeaders (webhook : Webhook) (event timestamp : String)
    (payloadJson : String) : List (String × String) :=
  let body := serializeEnvelope event timestamp payloadJson
  let base := [("Content-Type", "application/json"),
               ("X-Webhook-Event", event),
               ("X-Webhook-Timestamp", timestamp)]
  match webhook.secret with
  | some secret => base ++ [("X-Webhook-Signature", generateSignature body secret)]
  | none => base

/-! ## Derived predicates used by the verification -/

/-- Chain predicate over a status-history list: starting from s, each record
leaves the status the previous one (or the start) established, and the list
ends at cur. On the empty list it degenerates to s = cur. -/
def histChain (s : TransactionStatus) : List StatusTransition →
    TransactionStatus → Bool
  | [], cur => s == cur
  | t :: ts, cur => (t.fromStatus == s) && histChain t.toStatus ts cur

/-- The lifecycle invariant of a stored transaction: its history is a chain
from PENDING to its current status. -/
def LifecycleChain (st : TxState) : Prop :=
  histChain .PENDING st.2 st.1.status = true

/-- A service operation only appended history records, and every appended
record is a transition of the allowed-transition table. -/
def ValidAppended (st st2 : TxState) : Prop :=
  ∃ suffix, st2.2 = st.2 ++ suffix ∧
    ∀ t ∈ suffix, t.toStatus ∈ VALID_STATUS_TRANSITIONS t.fromStatus

/-- Whether createTransaction accepts a request. -/
def createOk (request : CreateTransactionRequest) : Bool :=
  match createTransaction request with
  | .ok _ => true
  | .error _ => false

/-- The thrown message of a rejected request (empty for accepted ones). -/
def createErr (request : CreateTransactionRequest) : String :=
  match createTransaction request with
  | .ok _ => ""
  | .error e => e

/-- A rule whose evaluation on tx triggers a DENY. -/
def DeniesOn (tx : Transaction) (r : Rule) : Prop :=
  (evaluateRule r tx).passed = false ∧ (evaluateRule r tx).action = .DENY

/-! ## Concrete fixtures used by the witness theorems -/

def txFixture : Transaction :=
  { id := "tx-1"
    ttype := .PAYMENT
    status := .PENDING
    priority := .NORMAL
    amount := 50
    currency := "USD"
    sourceAccount := "ACC-001"
    destinationAccount := none
    description := none
    retryCount := 0
    maxRetries := 3
    errorCode := none
    errorMessage := none }

def txUnsupportedCurrency : Transaction :=
  { txFixture with currency := "XYZ" }

def reqFixtureOk : CreateTransactionRequest :=
  { rtype := .PAYMENT
    amount := 125
    currency := "usd"
    sourceAccount := "ACC-001"
    destinationAccount := some "ACC-002"
    description := none
    priority := none }

def reqFixtureBad : CreateTransactionRequest :=
  { reqFixtureOk with amount := 0 }

def webhookFixture : Webhook :=
  { id := "wh-1"
    name := "primary"
    url := "https://example.invalid/hook"
    secret := some "hook-secret"
    events := ["transaction.completed"]
    isActive := true
    retryCount := 0
    maxRetries := 3 }

/-- Common shape of one successful lifecycle operation: it only appends
table-conforming history records, preserves the retry counters, and
preserves the lifecycle chain invariant. -/
def OpStep (st st2 : TxState) : Prop :=
  ValidAppended st st2 ∧
  st2.1.retryCount = st.1.retryCount ∧
  st2.1.maxRetries = st.1.maxRetries ∧
  (LifecycleChain st → LifecycleChain st2)

/-! # Theorems -/

/-- Anatomy of a successful updateStatus call: the requested status was
reachable, the status field was set and exactly one transition record was
appended. -/
theorem updateStatus_ok_elim {st : TxState} {ns : TransactionStatus} {a : String}
    {r : Option String} {st2 : TxState}
    (h : updateStatus st ns a r = .ok st2) :
    ns ∈ VALID_STATUS_TRANSITIONS st.1.status ∧
    st2.1 = { st.1 with status := ns } ∧
    st2.2 = st.2 ++ [⟨st.1.id, st.1.status, ns, r, a⟩] := by
  simp only [updateStatus] at h
  split at h
  · rename_i hc
    cases h
    exact ⟨by simpa using hc, rfl, rfl⟩
  · cases h

/-- A transition outside the table makes updateStatus throw the
invalid-transition error naming both statuses. -/
theorem updateStatus_error_of_invalid {st : TxState} {ns : TransactionStatus}
    (a : String) (r : Option String)
    (h : ns ∉ VALID_STATUS_TRANSITIONS st.1.status) :
    updateStatus st ns a r = .error ("Invalid status transition from " ++
      st.1.status.name ++ " to " ++ ns.name) := by
  simp only [updateStatus]
  rw [if_neg]
  simpa using h

/-- A transition inside the table succeeds and appends its record. -/
theorem updateStatus_ok_of_valid {st : TxState} {ns : TransactionStatus}
    (a : String) (r : Option String)
    (h : ns ∈ VALID_STATUS_TRANSITIONS st.1.status) :
    updateStatus st ns a r = .ok ({ st.1 with status := ns },
      st.2 ++ [⟨st.1.id, st.1.status, ns, r, a⟩]) := by
  simp only [updateStatus]
  rw [if_pos]
  simpa using h

/-- Boolean equality from a DecidableEq instance is symmetric. -/
theorem beqSymm {α : Type} [DecidableEq α] (a b : α) : (a == b) = (b == a) := by
  by_cases h : a = b
  · simp [h]
  · simp [beq_iff_eq, h, Ne.symm h]

/-- Appending one record to a chain extends it exactly when the record
picks up the chain end and moves it to its own target status. -/
theorem histChain_append (t : StatusTransition) :
    ∀ (h : List StatusTransition) (s cur : TransactionStatus),
      histChain s (h ++ [t]) cur =
        (histChain s h t.fromStatus && (t.toStatus == cur)) := by
  intro h
  induction h with
  | nil =>
    intro s cur
    simp [histChain, beqSymm t.fromStatus s]
  | cons head tail ih =>
    intro s cur
    simp [histChain, ih, Bool.and_assoc]

/-- One successful updateStatus call is a well-behaved service step. -/
theorem opStep_updateStatus {st st2 : TxState} {ns : TransactionStatus}
    {a : String} {r : Option String}
    (h : updateStatus st ns a r = .ok st2) : OpStep st st2 := by
  obtain ⟨hmem, h1, h2⟩ := updateStatus_ok_elim h
  refine ⟨⟨[⟨st.1.id, st.1.status, ns, r, a⟩], h2, ?_⟩, by rw [h1], by rw [h1], ?_⟩
  · intro t ht
    simp at ht
    subst ht
    exact hmem
  · intro hc
    unfold LifecycleChain at hc ⊢
    rw [h2, h1, histChain_append]
    simp [hc]

/-- Service steps compose. -/
theorem opStep_trans {a b c : TxState} (h1 : OpStep a b) (h2 : OpStep b c) :
    OpStep a c := by
  obtain ⟨⟨s1, hs1, hv1⟩, hr1, hm1, hc1⟩ := h1
  obtain ⟨⟨s2, hs2, hv2⟩, hr2, hm2, hc2⟩ := h2
  refine ⟨⟨s1 ++ s2, ?_, ?_⟩, by rw [hr2, hr1], by rw [hm2, hm1], fun hc => hc2 (hc1 hc)⟩
  · rw [hs2, hs1, List.append_assoc]
  · intro t ht
    rcases List.mem_append.1 ht with h | h
    · exact hv1 t h
    · exact hv2 t h

/-- Patching only errorCode and errorMessage is a service step that leaves
history, status and the retry counters alone. -/
theorem opStep_fieldPatch (tx : Transaction) (hist : List StatusTransition)
    (e m : Option String) :
    OpStep (tx, hist) ({ tx with errorCode := e, errorMessage := m }, hist) := by
  refine ⟨⟨[], by simp, by simp⟩, rfl, rfl, fun hc => hc⟩

/-- A successful processTransaction run, in any of its three terminal
shapes, is a composition of updateStatus calls and error-field patches,
hence a well-behaved service step. -/
theorem process_opStep {cfg : RulesEngineConfig} {rules : List Rule} {ok : Bool}
    {st st2 : TxState}
    (h : processTransaction cfg rules ok st = .ok st2) : OpStep st st2 := by
  simp only [processTransaction, bind, Except.bind, pure, Except.pure] at h
  split at h
  · cases h
  · rename_i st1 hu1
    split at h
    · -- deny branch
      split at h
      · cases h
      · rename_i st15 hu2
        cases h
        exact opStep_trans (opStep_updateStatus hu1)
          (opStep_trans (opStep_updateStatus hu2) (opStep_fieldPatch _ _ _ _))
    · -- allowed branch
      split at h
      · cases h
      · rename_i st15 hu2
        by_cases hs : ok
        · rw [if_pos hs] at h
          split at h
          · cases h
          · rename_i st16 hu3
            cases h
            exact opStep_trans (opStep_updateStatus hu1)
              (opStep_trans (opStep_updateStatus hu2) (opStep_updateStatus hu3))
        · rw [if_neg hs] at h
          split at h
          · cases h
          · rename_i st16 hu3
            cases h
            exact opStep_trans (opStep_updateStatus hu1)
              (opStep_trans (opStep_updateStatus hu2)
                (opStep_trans (opStep_updateStatus hu3) (opStep_fieldPatch _ _ _ _)))

/-- Anatomy of a successful retryTransaction call: the transaction was
FAILED and strictly under its retry bound, the retry counter advanced by
exactly one, and the rest behaves like a service step. -/
theorem retry_ok_elim {cfg : RulesEngineConfig} {rules : List Rule} {ok : Bool}
    {st st2 : TxState}
    (h : retryTransaction cfg rules ok st = .ok st2) :
    st.1.status = .FAILED ∧ st.1.retryCount < st.1.maxRetries ∧
    st2.1.retryCount = st.1.retryCount + 1 ∧ st2.1.maxRetries = st.1.maxRetries ∧
    ValidAppended st st2 ∧ (LifecycleChain st → LifecycleChain st2) := by
  simp only [retryTransaction, bind, Except.bind] at h
  split at h
  · cases h
  · rename_i hstat
    split at h
    · cases h
    · rename_i hrc
      split at h
      · cases h
      · rename_i st1 hu1
        have hstep := opStep_trans (opStep_updateStatus hu1) (process_opStep h)
        obtain ⟨⟨suf, hsuf, hval⟩, hr, hm, hchain⟩ := hstep
        refine ⟨not_not.1 hstat, Nat.lt_of_not_le hrc, by rw [hr], by rw [hm],
          ⟨suf, hsuf, hval⟩, fun hc => hchain hc⟩

/-- A FAILED transaction at or above its retry bound makes retryTransaction
throw the retries-exhausted error, for every processing outcome. -/
theorem retry_exhausted {st : TxState} (hstat : st.1.status = .FAILED)
    (hge : st.1.maxRetries ≤ st.1.retryCount)
    (cfg : RulesEngineConfig) (rules : List Rule) (ok : Bool) :
    retryTransaction cfg rules ok st =
      .error ("Maximum retry attempts (" ++ toString st.1.maxRetries ++ ") exceeded") := by
  simp only [retryTransaction]
  rw [if_neg (by simp [hstat]), if_pos hge]

/-- Cancelling a COMPLETED transaction throws. -/
theorem cancel_completed {st : TxState} (hstat : st.1.status = .COMPLETED)
    (r : Option String) :
    cancelTransaction st r =
      .error "Cannot cancel a completed transaction. Use refund instead." := by
  simp [cancelTransaction, hstat]

/-- Cancelling an already CANCELLED transaction throws. -/
theorem cancel_cancelled {st : TxState} (hstat : st.1.status = .CANCELLED)
    (r : Option String) :
    cancelTransaction st r = .error "Transaction is already cancelled" := by
  simp [cancelTransaction, hstat]

/-- Refunding a transaction that is not COMPLETED throws. -/
theorem refund_not_completed {st : TxState} (hstat : st.1.status ≠ .COMPLETED)
    (r : Option String) :
    refundTransaction st r = .error "Only completed transactions can be refunded" := by
  simp [refundTransaction, hstat]

/-- A successful cancelTransaction is a service step. -/
theorem cancel_ok_elim {st st2 : TxState} {r : Option String}
    (h : cancelTransaction st r = .ok st2) : OpStep st st2 := by
  simp only [cancelTransaction] at h
  split at h
  · cases h
  · split at h
    · cases h
    · exact opStep_updateStatus h

/-- A successful refundTransaction is a service step. -/
theorem refund_ok_elim {st st2 : TxState} {r : Option String}
    (h : refundTransaction st r = .ok st2) : OpStep st st2 := by
  simp only [refundTransaction] at h
  split at h
  · cases h
  · exact opStep_updateStatus h

/-- A created transaction starts PENDING with zero retries out of three. -/
theorem create_ok_elim {req : CreateTransactionRequest} {tx : Transaction}
    (h : createTransaction req = .ok tx) :
    tx.status = .PENDING ∧ tx.retryCount = 0 ∧ tx.maxRetries = 3 := by
  simp only [createTransaction] at h
  split at h
  · cases h
  · split at h
    · cases h
    · split at h
      · cases h
      · cases h
        exact ⟨rfl, rfl, rfl⟩

/-- The first record of a chain starts at the chain origin. -/
theorem histChain_head {hl : List StatusTransition} {s cur : TransactionStatus}
    (hc : histChain s hl cur = true) :
    ∀ t0, hl.head? = some t0 → t0.fromStatus = s := by
  cases hl with
  | nil => intro t0 h; cases h
  | cons t ts =>
    intro t0 h
    cases h
    simp [histChain] at hc
    exact hc.1

/-- Consecutive records of a chain meet: each target status is the source
status of the next record. -/
theorem histChain_links {hl : List StatusTransition} :
    ∀ {s cur : TransactionStatus}, histChain s hl cur = true →
      ∀ i t1 t2, hl[i]? = some t1 → hl[i + 1]? = some t2 →
        t1.toStatus = t2.fromStatus := by
  induction hl with
  | nil => intro s cur hc i t1 t2 h1 h2; cases h1
  | cons t ts ih =>
    intro s cur hc i t1 t2 h1 h2
    simp [histChain] at hc
    cases i with
    | zero =>
      rw [List.getElem?_cons_zero] at h1
      rw [List.getElem?_cons_succ] at h2
      cases h1
      cases ts with
      | nil => cases h2
      | cons u us =>
        rw [List.getElem?_cons_zero] at h2
        cases h2
        simp [histChain] at hc
        exact hc.2.1.symm
    | succ j =>
      rw [List.getElem?_cons_succ] at h1 h2
      exact ih hc.2 j t1 t2 h1 h2

/-- The last record of a chain ends at the chain end. -/
theorem histChain_last {hl : List StatusTransition} :
    ∀ {s cur : TransactionStatus}, histChain s hl cur = true →
      ∀ tl, hl.getLast? = some tl → tl.toStatus = cur := by
  induction hl with
  | nil => intro s cur hc tl h; cases h
  | cons t ts ih =>
    intro s cur hc tl h
    simp [histChain] at hc
    cases ts with
    | nil =>
      cases h
      simp [histChain] at hc
      exact hc.2
    | cons u us =>
      rw [List.getLast?_cons_cons] at h
      exact ih hc.2 tl h

/-- An empty chain relates equal endpoint statuses. -/
theorem histChain_nil_iff (s cur : TransactionStatus) :
    histChain s [] cur = true ↔ s = cur := by
  simp [histChain]

/-- C1: every status change goes through updateStatus and is a member of
the allowed-transition table; a transition outside the table fails with an
invalid-transition error naming the current and requested status (the error
leaves state unchanged, since the embedded operations return no state on
error and the source mutates only after this guard); a successful call sets
exactly the requested status and appends exactly one history record; and
every other lifecycle operation that succeeds only appends
table-conforming transition records. -/
theorem c1_status_transitions :
    ∀ (st : TxState) (ns : TransactionStatus) (actor : String) (r : Option String),
      (ns ∉ VALID_STATUS_TRANSITIONS st.1.status →
        updateStatus st ns actor r = .error ("Invalid status transition from " ++
          st.1.status.name ++ " to " ++ ns.name)) ∧
      (∀ st2, updateStatus st ns actor r = .ok st2 →
        ns ∈ VALID_STATUS_TRANSITIONS st.1.status ∧ st2.1.status = ns ∧
        st2.2 = st.2 ++ [⟨st.1.id, st.1.status, ns, r, actor⟩]) ∧
      (∀ cfg rules ok st2, processTransaction cfg rules ok st = .ok st2 →
        ValidAppended st st2) ∧
      (∀ cfg rules ok st2, retryTransaction cfg rules ok st = .ok st2 →
        ValidAppended st st2) ∧
      (∀ st2, cancelTransaction st r = .ok st2 → ValidAppended st st2) ∧
      (∀ st2, refundTransaction st r = .ok st2 → ValidAppended st st2) := by
  intro st ns actor r
  refine ⟨fun h => updateStatus_error_of_invalid actor r h, ?_, ?_, ?_, ?_, ?_⟩
  · intro st2 h
    obtain ⟨hmem, h1, h2⟩ := updateStatus_ok_elim h
    exact ⟨hmem, by rw [h1], h2⟩
  · intro cfg rules ok st2 h
    exact (process_opStep h).1
  · intro cfg rules ok st2 h
    exact (retry_ok_elim h).2.2.2.2.1
  · intro st2 h
    exact (cancel_ok_elim h).1
  · intro st2 h
    exact (refund_ok_elim h).1

/-- Witness for C1 at a concrete PENDING transaction asked to jump
straight to COMPLETED. -/
theorem c1_witness :
    updateStatus (txFixture, ([] : List StatusTransition)) .COMPLETED "user" none =
      .error "Invalid status transition from PENDING to COMPLETED" :=
  (c1_status_transitions (txFixture, []) .COMPLETED "user" none).1 (by decide)

/-- C4: retryCount stays at or below maxRetries at all times: creation
starts at 0 of 3, retryTransaction on a FAILED transaction at or beyond the
bound always fails with the retries-exhausted error for every processing
outcome (so processing is never re-invoked and nothing changes), a
successful retry increments the counter only from strictly below the bound,
and every other operation leaves both counters unchanged. -/
theorem c4_retry_bound :
    (∀ req tx, createTransaction req = .ok tx →
      tx.retryCount = 0 ∧ tx.maxRetries = 3 ∧ tx.retryCount ≤ tx.maxRetries) ∧
    (∀ st : TxState, st.1.status = .FAILED → st.1.maxRetries ≤ st.1.retryCount →
      ∀ cfg rules ok, retryTransaction cfg rules ok st =
        .error ("Maximum retry attempts (" ++ toString st.1.maxRetries ++ ") exceeded")) ∧
    (∀ cfg rules ok (st st2 : TxState), retryTransaction cfg rules ok st = .ok st2 →
      st.1.retryCount < st.1.maxRetries ∧ st2.1.retryCount = st.1.retryCount + 1 ∧
      st2.1.maxRetries = st.1.maxRetries ∧ st2.1.retryCount ≤ st2.1.maxRetries) ∧
    (∀ cfg rules ok (st st2 : TxState), processTransaction cfg rules ok st = .ok st2 →
      st2.1.retryCount = st.1.retryCount ∧ st2.1.maxRetries = st.1.maxRetries) ∧
    (∀ (st st2 : TxState) r, cancelTransaction st r = .ok st2 →
      st2.1.retryCount = st.1.retryCount ∧ st2.1.maxRetries = st.1.maxRetries) ∧
    (∀ (st st2 : TxState) r, refundTransaction st r = .ok st2 →
      st2.1.retryCount = st.1.retryCount ∧ st2.1.maxRetries = st.1.maxRetries) ∧
    (∀ (st st2 : TxState) ns a r, updateStatus st ns a r = .ok st2 →
      st2.1.retryCount = st.1.retryCount ∧ st2.1.maxRetries = st.1.maxRetries) := by
  refine ⟨?_, ?_, ?_, ?_, ?_, ?_, ?_⟩
  · intro req tx h
    obtain ⟨_, h0, h3⟩ := create_ok_elim h
    exact ⟨h0, h3, by rw [h0, h3]; exact Nat.zero_le 3⟩
  · intro st hstat hge cfg rules ok
    exact retry_exhausted hstat hge cfg rules ok
  · intro cfg rules ok st st2 h
    obtain ⟨_, hlt, hrc, hmr, _, _⟩ := retry_ok_elim h
    exact ⟨hlt, hrc, hmr, by rw [hrc, hmr]; exact hlt⟩
  · intro cfg rules ok st st2 h
    exact ⟨(process_opStep h).2.1, (process_opStep h).2.2.1⟩
  · intro st st2 r h
    exact ⟨(cancel_ok_elim h).2.1, (cancel_ok_elim h).2.2.1⟩
  · intro st st2 r h
    exact ⟨(refund_ok_elim h).2.1, (refund_ok_elim h).2.2.1⟩
  · intro st st2 ns a r h
    exact ⟨(opStep_updateStatus h).2.1, (opStep_updateStatus h).2.2.1⟩

/-- Witness for C4 at a concrete FAILED transaction with 3 of 3 retries
used. -/
theorem c4_witness :
    retryTransaction defaultConfig defaultRulesList true
      ({ txFixture with status := .FAILED, retryCount := 3 }, []) =
      .error "Maximum retry attempts (3) exceeded" :=
  c4_retry_bound.2.1 ({ txFixture with status := .FAILED, retryCount := 3 }, [])
    rfl (by decide) defaultConfig defaultRulesList true

/-- C6: cancelTransaction always fails on a COMPLETED transaction (refund
must be used) and on an already CANCELLED one; refundTransaction always
fails when the status is anything other than COMPLETED; each failure
returns only the error, leaving status and history unchanged. -/
theorem c6_cancel_refund_guards :
    ∀ (st : TxState) (r : Option String),
      (st.1.status = .COMPLETED → cancelTransaction st r =
        .error "Cannot cancel a completed transaction. Use refund instead.") ∧
      (st.1.status = .CANCELLED → cancelTransaction st r =
        .error "Transaction is already cancelled") ∧
      (st.1.status ≠ .COMPLETED → refundTransaction st r =
        .error "Only completed transactions can be refunded") := by
  intro st r
  exact ⟨fun h => cancel_completed h r, fun h => cancel_cancelled h r,
    fun h => refund_not_completed h r⟩

/-- Witness for C6 at concrete COMPLETED and PENDING transactions. -/
theorem c6_witness :
    cancelTransaction ({ txFixture with status := .COMPLETED }, []) none =
        .error "Cannot cancel a completed transaction. Use refund instead." ∧
      refundTransaction (txFixture, []) none =
        .error "Only completed transactions can be refunded" :=
  ⟨(c6_cancel_refund_guards ({ txFixture with status := .COMPLETED }, []) none).1 rfl,
   (c6_cancel_refund_guards (txFixture, []) none).2.2 (by decide)⟩

/-- C9: the status history of every stored transaction forms a chain: a
freshly created transaction has an empty history and status PENDING, every
operation preserves the chain invariant, and the invariant yields the
claimed shape: the first record leaves PENDING, consecutive records meet,
and the last record ends at the current status. -/
theorem c9_history_chain :
    (∀ req tx, createTransaction req = .ok tx →
      tx.status = .PENDING ∧ LifecycleChain (tx, [])) ∧
    (∀ (st st2 : TxState) ns a r, updateStatus st ns a r = .ok st2 →
      LifecycleChain st → LifecycleChain st2) ∧
    (∀ cfg rules ok (st st2 : TxState), processTransaction cfg rules ok st = .ok st2 →
      LifecycleChain st → LifecycleChain st2) ∧
    (∀ cfg rules ok (st st2 : TxState), retryTransaction cfg rules ok st = .ok st2 →
      LifecycleChain st → LifecycleChain st2) ∧
    (∀ (st st2 : TxState) r, cancelTransaction st r = .ok st2 →
      LifecycleChain st → LifecycleChain st2) ∧
    (∀ (st st2 : TxState) r, refundTransaction st r = .ok st2 →
      LifecycleChain st → LifecycleChain st2) ∧
    (∀ st : TxState, LifecycleChain st →
      (∀ t0, st.2.head? = some t0 → t0.fromStatus = .PENDING) ∧
      (∀ i t1 t2, st.2[i]? = some t1 → st.2[i + 1]? = some t2 →
        t1.toStatus = t2.fromStatus) ∧
      (∀ tl, st.2.getLast? = some tl → tl.toStatus = st.1.status)) := by
  refine ⟨?_, ?_, ?_, ?_, ?_, ?_, ?_⟩
  · intro req tx h
    obtain ⟨hstat, _, _⟩ := create_ok_elim h
    refine ⟨hstat, ?_⟩
    unfold LifecycleChain
    simp [histChain, hstat]
  · intro st st2 ns a r h hc
    exact (opStep_updateStatus h).2.2.2 hc
  · intro cfg rules ok st st2 h hc
    exact (process_opStep h).2.2.2 hc
  · intro cfg rules ok st st2 h hc
    exact (retry_ok_elim h).2.2.2.2.2 hc
  · intro st st2 r h hc
    exact (cancel_ok_elim h).2.2.2 hc
  · intro st st2 r h hc
    exact (refund_ok_elim h).2.2.2 hc
  · intro st hc
    exact ⟨histChain_head hc, histChain_links hc, histChain_last hc⟩

/-- Witness for C9 on a concrete one-record history. -/
theorem c9_witness :
    ∀ tl, [(⟨"tx-1", .PENDING, .VALIDATING, none, "system"⟩ : StatusTransition)].getLast? =
      some tl → tl.toStatus = TransactionStatus.VALIDATING :=
  (c9_history_chain.2.2.2.2.2.2
    ({ txFixture with status := .VALIDATING },
      [⟨"tx-1", .PENDING, .VALIDATING, none, "system"⟩]) (by rfl)).2.2

/-- C10: for every transaction, a composite condition with operator AND
and an empty children list evaluates to true and with OR to false (an empty
array is truthy in JS, so both reach the composite branch), while AND or OR
with the children field absent falls through to leaf handling and evaluates
to false when no field is named. -/
theorem c10_condition_edges :
    ∀ (tx : Transaction) (ct : RuleConditionType) (v : JValue) (f : Option TxField),
      evaluateCondition tx (.mk ct .AND v f (some [])) = true ∧
      evaluateCondition tx (.mk ct .OR v f (some [])) = false ∧
      evaluateCondition tx (.mk ct .AND v none none) = false ∧
      evaluateCondition tx (.mk ct .OR v none none) = false := by
  intro tx ct v f
  refine ⟨?_, ?_, ?_, ?_⟩ <;>
    simp [evaluateCondition, condChildrenAll, condChildrenAny]

/-- Membership in a priority insertion. -/
theorem mem_insertByPriority (r y : Rule) :
    ∀ xs : List Rule, y ∈ insertByPriority r xs ↔ y = r ∨ y ∈ xs := by
  intro xs
  induction xs with
  | nil => simp [insertByPriority]
  | cons x rest ih =>
    by_cases hle : x.priority ≤ r.priority
    · simp only [insertByPriority, if_pos hle, List.mem_cons, ih]
      try tauto
    · simp only [insertByPriority, if_neg hle, List.mem_cons]
      try tauto

/-- Priority insertion preserves ascending order. -/
theorem insertByPriority_sorted (r : Rule) :
    ∀ xs : List Rule, xs.Pairwise (fun a b => a.priority ≤ b.priority) →
      (insertByPriority r xs).Pairwise (fun a b => a.priority ≤ b.priority) := by
  intro xs
  induction xs with
  | nil => intro h; simp [insertByPriority]
  | cons x rest ih =>
    intro h
    rw [List.pairwise_cons] at h
    by_cases hle : x.priority ≤ r.priority
    · simp only [insertByPriority, if_pos hle]
      rw [List.pairwise_cons]
      refine ⟨?_, ih h.2⟩
      intro y hy
      rcases (mem_insertByPriority r y rest).1 hy with hh | hh
      · subst hh; exact hle
      · exact h.1 y hh
    · simp only [insertByPriority, if_neg hle]
      rw [List.pairwise_cons]
      have hlt : r.priority ≤ x.priority := le_of_lt (lt_of_not_le hle)
      refine ⟨?_, ?_⟩
      · intro y hy
        rcases List.mem_cons.1 hy with hh | hh
        · subst hh; exact hlt
        · exact le_trans hlt (h.1 y hh)
      · rw [List.pairwise_cons]
        exact ⟨h.1, h.2⟩

/-- Priority insertion is a permutation of consing. -/
theorem insertByPriority_perm (r : Rule) :
    ∀ xs : List Rule, (insertByPriority r xs).Perm (r :: xs) := by
  intro xs
  induction xs with
  | nil => simp [insertByPriority]
  | cons x rest ih =>
    by_cases hle : x.priority ≤ r.priority
    · simp only [insertByPriority, if_pos hle]
      exact (ih.cons x).trans (List.Perm.swap r x rest)
    · simp [insertByPriority, hle]

/-- Inserting into an ascending list puts the new rule after every already
present rule of its own priority: the restriction to any one priority
value gains the new rule at its end. -/
theorem insertByPriority_filter (r : Rule) (p : Int) :
    ∀ xs : List Rule, xs.Pairwise (fun a b => a.priority ≤ b.priority) →
      (insertByPriority r xs).filter (fun x => x.priority == p) =
        xs.filter (fun x => x.priority == p) ++
          (if r.priority = p then [r] else []) := by
  intro xs
  induction xs with
  | nil =>
    intro hs
    by_cases hp : r.priority = p <;>
      simp [insertByPriority, List.filter_cons, beq_iff_eq, hp]
  | cons x rest ih =>
    intro hs
    rw [List.pairwise_cons] at hs
    have hrec := ih hs.2
    by_cases hle : x.priority ≤ r.priority
    · simp only [insertByPriority, if_pos hle, List.filter_cons, hrec]
      by_cases hx : x.priority = p <;> simp [beq_iff_eq, hx]
    · have hlt : r.priority < x.priority := lt_of_not_le hle
      by_cases hp : r.priority = p
      · have hnone : (x :: rest).filter (fun y => y.priority == p) = [] := by
          rw [List.filter_eq_nil_iff]
          intro y hy
          rcases List.mem_cons.1 hy with hh | hh
          · subst hh; simp [beq_iff_eq]; omega
          · have := hs.1 y hh
            simp [beq_iff_eq]
            omega
        simp only [insertByPriority, if_neg hle, List.filter_cons, hnone]
        simp [beq_iff_eq, hp, hnone]
      · simp only [insertByPriority, if_neg hle, List.filter_cons]
        simp [beq_iff_eq, hp]

/-- The insertion fold keeps the accumulator ascending. -/
theorem sortRulesAux_sorted :
    ∀ (rs : List Rule) (acc : List Rule),
      acc.Pairwise (fun a b => a.priority ≤ b.priority) →
      (rs.foldl (fun acc r => insertByPriority r acc) acc).Pairwise
        (fun a b => a.priority ≤ b.priority) := by
  intro rs
  induction rs with
  | nil => intro acc h; simpa using h
  | cons r rest ih =>
    intro acc h
    exact ih (insertByPriority r acc) (insertByPriority_sorted r acc h)

/-- The insertion fold appends each priority class in encounter order. -/
theorem sortRulesAux_filter (p : Int) :
    ∀ (rs : List Rule) (acc : List Rule),
      acc.Pairwise (fun a b => a.priority ≤ b.priority) →
      (rs.foldl (fun acc r => insertByPriority r acc) acc).filter
          (fun x => x.priority == p) =
        acc.filter (fun x => x.priority == p) ++
          rs.filter (fun x => x.priority == p) := by
  intro rs
  induction rs with
  | nil => intro acc h; simp
  | cons r rest ih =>
    intro acc h
    rw [List.foldl_cons, ih (insertByPriority r acc) (insertByPriority_sorted r acc h),
      insertByPriority_filter r p acc h, List.filter_cons]
    by_cases hp : r.priority = p <;> simp [beq_iff_eq, hp]

/-- The insertion fold permutes the accumulator and the input. -/
theorem sortRulesAux_perm :
    ∀ (rs : List Rule) (acc : List Rule),
      (rs.foldl (fun acc r => insertByPriority r acc) acc).Perm (acc ++ rs) := by
  intro rs
  induction rs with
  | nil => intro acc; simp
  | cons r rest ih =>
    intro acc
    rw [List.foldl_cons]
    refine (ih (insertByPriority r acc)).trans ?_
    have h1 : (insertByPriority r acc ++ rest).Perm ((r :: acc) ++ rest) :=
      (insertByPriority_perm r acc).append_right rest
    refine h1.trans ?_
    simp only [List.cons_append]
    exact List.perm_middle.symm

/-- sortRules yields an ascending-priority list. -/
theorem sortRules_sorted (rs : List Rule) :
    (sortRules rs).Pairwise (fun a b => a.priority ≤ b.priority) :=
  sortRulesAux_sorted rs [] (by simp)

/-- sortRules is stable: every priority class keeps its insertion order. -/
theorem sortRules_stable (rs : List Rule) (p : Int) :
    (sortRules rs).filter (fun x => x.priority == p) =
      rs.filter (fun x => x.priority == p) := by
  have := sortRulesAux_filter p rs [] (by simp)
  simpa [sortRules] using this

/-- sortRules permutes its input: exactly the given rules are kept. -/
theorem sortRules_perm (rs : List Rule) : (sortRules rs).Perm rs := by
  have := sortRulesAux_perm rs []
  simpa [sortRules] using this

/-- A rule that does not trigger a DENY only appends its result to the
accumulator before evaluation continues. -/
theorem evalLoop_step_no_deny (cfg : RulesEngineConfig) (tx : Transaction)
    (r : Rule) (rest : List Rule) (acc : EvalOutcome) (hr : ¬ DeniesOn tx r) :
    ∃ acc2, evalLoop cfg tx (r :: rest) acc = evalLoop cfg tx rest acc2 ∧
      acc2.results = acc.results ++ [evaluateRule r tx] := by
  cases hp : (evaluateRule r tx).passed with
  | true =>
    exact ⟨{ acc with results := acc.results ++ [evaluateRule r tx] },
      by simp [evalLoop, hp], by simp⟩
  | false =>
    cases ha : (evaluateRule r tx).action with
    | DENY => exact absurd ⟨hp, ha⟩ hr
    | ALLOW =>
      exact ⟨{ acc with results := acc.results ++ [evaluateRule r tx] },
        by simp [evalLoop, hp, ha], by simp⟩
    | FLAG =>
      exact ⟨{ acc with results := acc.results ++ [evaluateRule r tx], flagged := true },
        by simp [evalLoop, hp, ha], by simp⟩
    | REQUIRE_APPROVAL =>
      refine ⟨{ acc with results := acc.results ++ [evaluateRule r tx], requiresApproval := true }, ?_, ?_⟩
      · simp [evalLoop, hp, ha]
      · simp

/-- Under stopOnFirstDeny, the loop hitting its first denying rule returns
immediately: allowed is false, the deny reason is that rule message, and
the results are exactly the rules evaluated up to and including it. -/
theorem evalLoop_first_deny (cfg : RulesEngineConfig) (tx : Transaction)
    (hstop : cfg.stopOnFirstDeny = true) :
    ∀ (pre : List Rule) (d : Rule) (post : List Rule) (acc : EvalOutcome),
      (∀ r ∈ pre, ¬ DeniesOn tx r) → DeniesOn tx d →
      (evalLoop cfg tx (pre ++ d :: post) acc).allowed = false ∧
      (evalLoop cfg tx (pre ++ d :: post) acc).denyReason =
        some (evaluateRule d tx).message ∧
      (evalLoop cfg tx (pre ++ d :: post) acc).results =
        acc.results ++ (pre ++ [d]).map (fun r => evaluateRule r tx) := by
  intro pre
  induction pre with
  | nil =>
    intro d post acc hpre hden
    simp [evalLoop, hden.1, hden.2, hstop]
  | cons r pre ih =>
    intro d post acc hpre hden
    have hr : ¬ DeniesOn tx r := hpre r (List.mem_cons_self r pre)
    have hpre2 : ∀ x ∈ pre, ¬ DeniesOn tx x :=
      fun x hx => hpre x (List.mem_cons_of_mem r hx)
    obtain ⟨acc2, he, hres⟩ :=
      evalLoop_step_no_deny cfg tx r (pre ++ d :: post) acc hr
    rw [List.cons_append, he]
    obtain ⟨h1, h2, h3⟩ := ih d post acc2 hpre2 hden
    refine ⟨h1, h2, ?_⟩
    rw [h3, hres]
    simp

/-- With no denying rule, the loop evaluates every rule and reports every
result. -/
theorem evalLoop_no_deny (cfg : RulesEngineConfig) (tx : Transaction) :
    ∀ (rs : List Rule) (acc : EvalOutcome), (∀ r ∈ rs, ¬ DeniesOn tx r) →
      (evalLoop cfg tx rs acc).results =
        acc.results ++ rs.map (fun r => evaluateRule r tx) := by
  intro rs
  induction rs with
  | nil => intro acc h; simp [evalLoop]
  | cons r rest ih =>
    intro acc h
    obtain ⟨acc2, he, hres⟩ := evalLoop_step_no_deny cfg tx r rest acc
      (h r (List.mem_cons_self r rest))
    rw [he, ih acc2 (fun x hx => h x (List.mem_cons_of_mem r hx)), hres]
    simp

/-- C2: evaluateTransaction evaluates exactly the enabled rules in
ascending priority order with ties in insertion order; under stopOnFirstDeny
the first triggered DENY returns immediately with allowed false, denyReason
the triggering rule message and results exactly the rules evaluated up to
and including it; with no deny every sorted enabled rule contributes a
result; the sort is ascending, stable (every priority class keeps insertion
order) and a permutation of the rule list; on the seeded rules it puts Very
High Amount Block first; and for every transaction with amount 150000 and
currency USD the outcome is the immediate deny by Very High Amount Block
with a single evaluated rule. -/
theorem c2_deny_short_circuit :
    (∀ (cfg : RulesEngineConfig) (rules : List Rule) (tx : Transaction)
        (pre : List Rule) (d : Rule) (post : List Rule),
      cfg.stopOnFirstDeny = true →
      sortRules (rules.filter (fun r => r.enabled)) = pre ++ d :: post →
      (∀ r ∈ pre, ¬ DeniesOn tx r) → DeniesOn tx d →
      (evaluateTransaction cfg rules tx).allowed = false ∧
      (evaluateTransaction cfg rules tx).denyReason =
        some (evaluateRule d tx).message ∧
      (evaluateTransaction cfg rules tx).results =
        (pre ++ [d]).map (fun r => evaluateRule r tx)) ∧
    (∀ (cfg : RulesEngineConfig) (rules : List Rule) (tx : Transaction),
      (∀ r ∈ sortRules (rules.filter (fun r => r.enabled)), ¬ DeniesOn tx r) →
      (evaluateTransaction cfg rules tx).results =
        (sortRules (rules.filter (fun r => r.enabled))).map
          (fun r => evaluateRule r tx)) ∧
    (∀ rs : List Rule,
      (sortRules rs).Pairwise (fun a b => a.priority ≤ b.priority)) ∧
    (∀ (rs : List Rule) (p : Int),
      (sortRules rs).filter (fun x => x.priority == p) =
        rs.filter (fun x => x.priority == p)) ∧
    (∀ rs : List Rule, (sortRules rs).Perm rs) ∧
    (sortRules (defaultRulesList.filter (fun r => r.enabled)) =
      [veryHighAmountBlockRule, minimumAmountRule, highAmountThresholdRule,
        supportedCurrenciesRule]) ∧
    (∀ tx : Transaction, tx.amount = 150000 → tx.currency = "USD" →
      evaluateTransaction defaultConfig defaultRulesList tx =
        { allowed := false
          results := [⟨"default-block-very-high-amount", "Very High Amount Block",
            false, .DENY, .CRITICAL,
            "Rule triggered: Very High Amount Block - Block transactions over $100,000"⟩]
          flagged := false
          requiresApproval := false
          denyReason :=
            some "Rule triggered: Very High Amount Block - Block transactions over $100,000" }) := by
  refine ⟨?_, ?_, sortRules_sorted, sortRules_stable, sortRules_perm, by rfl, ?_⟩
  · intro cfg rules tx pre d post hstop hsort hpre hden
    unfold evaluateTransaction
    rw [hsort]
    exact evalLoop_first_deny cfg tx hstop pre d post _ hpre hden
  · intro cfg rules tx hnone
    unfold evaluateTransaction
    exact evalLoop_no_deny cfg tx _ _ hnone
  · intro tx ha hc
    have hden : evaluateRule veryHighAmountBlockRule tx =
        ⟨"default-block-very-high-amount", "Very High Amount Block", false, .DENY,
          .CRITICAL,
          "Rule triggered: Very High Amount Block - Block transactions over $100,000"⟩ := by
      simp [evaluateRule, veryHighAmountBlockRule, evaluateCondition, evalLeaf,
        numCompare, getField, ha]
      norm_num
    have hsort : sortRules (defaultRulesList.filter (fun r => r.enabled)) =
        [veryHighAmountBlockRule, minimumAmountRule, highAmountThresholdRule,
          supportedCurrenciesRule] := by rfl
    unfold evaluateTransaction
    rw [hsort]
    simp [evalLoop, hden, defaultConfig]

/-- Witness for C2 at a concrete transaction of amount 150000 USD. -/
theorem c2_witness :
    evaluateTransaction defaultConfig defaultRulesList
        { txFixture with amount := 150000 } =
      { allowed := false
        results := [⟨"default-block-very-high-amount", "Very High Amount Block",
          false, .DENY, .CRITICAL,
          "Rule triggered: Very High Amount Block - Block transactions over $100,000"⟩]
        flagged := false
        requiresApproval := false
        denyReason :=
          some "Rule triggered: Very High Amount Block - Block transactions over $100,000" } :=
  c2_deny_short_circuit.2.2.2.2.2.2 { txFixture with amount := 150000 } rfl rfl

/-- C3, failing-input evaluation: a transaction of amount 50 (inside the
amount bounds) and currency XYZ makes the Supported Currencies ALLOW rule
evaluate as not passed, yet evaluateTransaction still returns allowed =
true, because a non-passing rule is reported with action ALLOW and the
verdict switch has no case for it. The claim (and the rule description)
say unsupported currencies are denied; the code does not do that. -/
theorem c3_unsupported_currency_allowed :
    (1 / 100 : ℚ) ≤ txUnsupportedCurrency.amount ∧
    txUnsupportedCurrency.amount ≤ 100000 ∧
    txUnsupportedCurrency.currency = "XYZ" ∧
    (evaluateRule supportedCurrenciesRule txUnsupportedCurrency).passed = false ∧
    (evaluateTransaction defaultConfig defaultRulesList txUnsupportedCurrency).allowed =
      true := by
  refine ⟨by norm_num [txUnsupportedCurrency, txFixture],
    by norm_num [txUnsupportedCurrency, txFixture], rfl, ?_, ?_⟩
  · simp [evaluateRule, supportedCurrenciesRule, evaluateCondition, evalLeaf, jsEq,
      getField, txUnsupportedCurrency, txFixture]
  · norm_num [evaluateTransaction, defaultRulesList, defaultConfig, sortRules,
      insertByPriority, highAmountThresholdRule, veryHighAmountBlockRule,
      minimumAmountRule, supportedCurrenciesRule, evalLoop, evaluateRule,
      evaluateCondition, evalLeaf, numCompare, getField, jsEq, List.filter,
      txUnsupportedCurrency, txFixture]
    decide

/-- Structure of a delivery trace from any starting attempt: attempt
numbers are consecutive with one log each, the log mirrors the delivery
outcome, and a retry is scheduled with delay 2 ^ attempt seconds exactly
on a failure strictly below maxRetries. -/
theorem sendWebhookTrace_props (d : Nat → Bool) (mr : Nat) :
    ∀ (n a : Nat), mr - a = n →
      ((sendWebhookTrace d mr a).map (fun rec => rec.attempt) =
        List.range' a (sendWebhookTrace d mr a).length) ∧
      (∀ rec ∈ sendWebhookTrace d mr a,
        rec.logSuccess = d rec.attempt ∧
        a ≤ rec.attempt ∧ rec.attempt ≤ max a mr ∧
        rec.retryDelayMs =
          if rec.logSuccess = false ∧ rec.attempt < mr then
            some (2 ^ rec.attempt * 1000)
          else none) := by
  intro n
  induction n with
  | zero =>
    intro a ha
    have hge : mr ≤ a := Nat.le_of_sub_eq_zero ha
    have hnl : ¬ a < mr := Nat.not_lt.2 hge
    rw [sendWebhookTrace]
    cases hd : d a with
    | true =>
      refine ⟨by simp [List.range'], ?_⟩
      intro rec hrec
      simp at hrec
      subst hrec
      simp [hd, Nat.le_max_left]
    | false =>
      simp only [Bool.false_eq_true, if_false, dif_neg hnl]
      refine ⟨by simp [List.range'], ?_⟩
      intro rec hrec
      simp at hrec
      subst hrec
      simp [hd, hnl, Nat.le_max_left]
  | succ k ih =>
    intro a ha
    have hlt : a < mr := by omega
    rw [sendWebhookTrace]
    cases hd : d a with
    | true =>
      refine ⟨by simp [List.range'], ?_⟩
      intro rec hrec
      simp at hrec
      subst hrec
      simp [hd, Nat.le_max_left]
    | false =>
      simp only [Bool.false_eq_true, if_false, dif_pos hlt]
      obtain ⟨ihmap, ihmem⟩ := ih (a + 1) (by omega)
      have hmax : max (a + 1) mr = mr := Nat.max_eq_right hlt
      constructor
      · simp only [List.map_cons, List.length_cons]
        rw [List.range'_succ, ihmap]
      · intro rec hrec
        rcases List.mem_cons.1 hrec with hh | ht
        · subst hh
          simp [hd, hlt]
        · obtain ⟨h1, h2, h3, h4⟩ := ihmem rec ht
          refine ⟨h1, by omega, ?_, h4⟩
          rw [hmax] at h3
          exact le_trans h3 (Nat.le_max_right a mr)

/-- C5: starting from attempt 1, every delivery attempt writes exactly one
WebhookLog (the trace lists consecutive attempt numbers once each), a
failed attempt logs success = false, a retry is scheduled with delay
2 ^ attempt seconds exactly while the attempt number is strictly below
maxRetries, and no attempt number ever exceeds maxRetries (or 1 when
maxRetries is 0, for the initial call itself). -/
theorem c5_webhook_retries : ∀ (deliverOk : Nat → Bool) (maxRetries : Nat),
    ((sendWebhookTrace deliverOk maxRetries 1).map (fun rec => rec.attempt) =
      List.range' 1 (sendWebhookTrace deliverOk maxRetries 1).length) ∧
    (∀ rec ∈ sendWebhookTrace deliverOk maxRetries 1,
      rec.logSuccess = deliverOk rec.attempt ∧
      1 ≤ rec.attempt ∧ rec.attempt ≤ max 1 maxRetries ∧
      rec.retryDelayMs =
        if rec.logSuccess = false ∧ rec.attempt < maxRetries then
          some (2 ^ rec.attempt * 1000)
        else none) := by
  intro deliverOk maxRetries
  exact sendWebhookTrace_props deliverOk maxRetries (maxRetries - 1) 1 rfl

/-- Witness for C5 on the trace of a webhook whose endpoint always fails
with maxRetries 3. -/
theorem c5_witness :
    (⟨2, false, some 4000⟩ : WebhookAttempt).retryDelayMs =
      if (⟨2, false, some 4000⟩ : WebhookAttempt).logSuccess = false ∧
          (⟨2, false, some 4000⟩ : WebhookAttempt).attempt < 3 then
        some (2 ^ (⟨2, false, some 4000⟩ : WebhookAttempt).attempt * 1000)
      else none :=
  ((c5_webhook_retries (fun _ => false) 3).2 ⟨2, false, some 4000⟩
    (by simp [sendWebhookTrace])).2.2.2

/-- A filter and its complement split the length of a list. -/
theorem filter_split_length {α : Type} (p : α → Bool) :
    ∀ l : List α, (l.filter p).length + (l.filter (fun x => !p x)).length = l.length := by
  intro l
  induction l with
  | nil => simp
  | cons x xs ih =>
    cases hp : p x <;> simp [List.filter, hp] <;> omega

/-- The per-item pass of batchCreate keeps every accepted request as a
success, and every rejected request as a failure entry carrying its index,
the original request, and the thrown message. -/
theorem batchCreateItems_anatomy :
    ∀ (reqs : List CreateTransactionRequest) (i : Nat),
      (batchCreateItems i reqs).1 =
        reqs.filterMap (fun r => (createTransaction r).toOption) ∧
      (batchCreateItems i reqs).1.length = (reqs.filter createOk).length ∧
      (batchCreateItems i reqs).2.length =
        (reqs.filter (fun r => !createOk r)).length ∧
      (∀ entry ∈ (batchCreateItems i reqs).2,
        i ≤ entry.index ∧ reqs[entry.index - i]? = some entry.request ∧
        createTransaction entry.request = .error entry.error) := by
  intro reqs
  induction reqs with
  | nil => intro i; simp [batchCreateItems]
  | cons r rest ih =>
    intro i
    obtain ⟨ih0, ih1, ih2, ih3⟩ := ih (i + 1)
    cases hcr : createTransaction r with
    | ok tx =>
      have hok : createOk r = true := by simp [createOk, hcr]
      refine ⟨?_, ?_, ?_, ?_⟩
      · simp [batchCreateItems, hcr, List.filterMap_cons, Except.toOption, ih0]
      · simp [batchCreateItems, hcr, List.filter, hok, ih1]
      · simp [batchCreateItems, hcr, List.filter, hok, ih2]
      · intro entry hentry
        simp only [batchCreateItems, hcr] at hentry
        obtain ⟨hi, hget, herr⟩ := ih3 entry hentry
        refine ⟨by omega, ?_, herr⟩
        have hidx : entry.index - i = (entry.index - (i + 1)) + 1 := by omega
        rw [hidx, List.getElem?_cons_succ]
        exact hget
    | error e =>
      have hok : createOk r = false := by simp [createOk, hcr]
      refine ⟨?_, ?_, ?_, ?_⟩
      · simp [batchCreateItems, hcr, List.filterMap_cons, Except.toOption, ih0]
      · simp [batchCreateItems, hcr, List.filter, hok, ih1]
      · simp [batchCreateItems, hcr, List.filter, hok, ih2]
      · intro entry hentry
        simp only [batchCreateItems, hcr, List.mem_cons] at hentry
        rcases hentry with hh | ht
        · subst hh
          simp [hcr]
        · obtain ⟨hi, hget, herr⟩ := ih3 entry ht
          refine ⟨by omega, ?_, herr⟩
          have hidx : entry.index - i = (entry.index - (i + 1)) + 1 := by omega
          rw [hidx, List.getElem?_cons_succ]
          exact hget

/-- Fueled logarithm bracketing: with fuel at least n the result L satisfies 2 ^ L <= n < 2 ^ (L + 1). -/
theorem log2Fuel_bounds :
    ∀ (fuel n : Nat), 1 ≤ n → n ≤ fuel →
      2 ^ log2Fuel fuel n ≤ n ∧ n < 2 ^ (log2Fuel fuel n + 1) := by
  intro fuel
  induction fuel with
  | zero => intro n h1 h2; omega
  | succ f ih =>
    intro n h1 h2
    by_cases h : 2 ≤ n
    · have hrec := ih (n / 2) (by omega) (by omega)
      simp only [log2Fuel, if_pos h]
      constructor
      · calc 2 ^ (log2Fuel f (n / 2) + 1) = 2 * 2 ^ log2Fuel f (n / 2) := by ring
          _ ≤ 2 * (n / 2) := by omega
          _ ≤ n := by omega
      · have : n / 2 < 2 ^ (log2Fuel f (n / 2) + 1) := hrec.2
        calc n < 2 * (n / 2) + 2 := by omega
          _ ≤ 2 * 2 ^ (log2Fuel f (n / 2) + 1) := by omega
          _ = 2 ^ (log2Fuel f (n / 2) + 1 + 1) := by ring
    · simp only [log2Fuel, if_neg h]
      omega

/-- Bracketing bounds for natLog2 on positive input. -/
theorem natLog2_bounds {n : Nat} (h : 1 ≤ n) :
    2 ^ natLog2 n ≤ n ∧ n < 2 ^ (natLog2 n + 1) :=
  log2Fuel_bounds n n h le_rfl

/-- Rounding to nearest with ties to even lands within half a unit of the exact quotient. -/
theorem mantissaRound_close {A B : Nat} (hB : 0 < B) :
    |(mantissaRound A B : ℚ) - (A : ℚ) / (B : ℚ)| ≤ 1 / 2 := by
  have hBq : (0 : ℚ) < (B : ℚ) := by exact_mod_cast hB
  have hdm := Nat.div_add_mod A B
  have hmlt := Nat.mod_lt A hB
  have hdmq : (B : ℚ) * (A / B : Nat) + (A % B : Nat) = (A : ℚ) := by exact_mod_cast hdm
  have hval : (A : ℚ) / B = (A / B : Nat) + (A % B : Nat) / B := by
    field_simp
    linarith
  simp only [mantissaRound]
  split
  · rename_i hlt
    have hx : (1 : ℚ) / 2 < (A % B : Nat) / B := by
      rw [lt_div_iff hBq]
      have : (B : ℚ) < 2 * (A % B : Nat) := by exact_mod_cast hlt
      linarith
    have hx2 : (A % B : Nat) / (B : ℚ) < 1 := by
      rw [div_lt_one hBq]
      exact_mod_cast hmlt
    rw [hval]
    push_cast
    rw [abs_le]
    constructor <;> linarith
  · split
    · rename_i hge hlt2
      have hx : (A % B : Nat) / (B : ℚ) < 1 / 2 := by
        rw [div_lt_iff hBq]
        have : 2 * ((A % B : Nat) : ℚ) < B := by exact_mod_cast hlt2
        linarith
      have hx0 : (0 : ℚ) ≤ (A % B : Nat) / (B : ℚ) := by positivity
      rw [hval]
      rw [abs_le]
      constructor <;> linarith
    · rename_i hge hge2
      have heq : (A % B : Nat) / (B : ℚ) = 1 / 2 := by
        rw [div_eq_iff (ne_of_gt hBq)]
        have : 2 * ((A % B : Nat) : ℚ) = B := by exact_mod_cast (by omega : 2 * (A % B) = B)
        linarith
      rw [hval]
      push_cast
      rw [abs_le]
      have hpar : ((A / B) % 2 : Nat) = 0 ∨ ((A / B) % 2 : Nat) = 1 :=
        Nat.mod_two_eq_zero_or_one _
      rcases hpar with h | h <;> rw [h] <;> push_cast <;> constructor <;> linarith

/-- The twoPowLE test decides the comparison of 2 ^ d against the fraction a / b. -/
theorem twoPowLE_iff {d : Int} {a b : Nat} (hb : 0 < b) :
    twoPowLE d a b = true ↔ (2 : ℚ) ^ d ≤ (a : ℚ) / (b : ℚ) := by
  have hbq : (0 : ℚ) < (b : ℚ) := by exact_mod_cast hb
  unfold twoPowLE
  rcases le_or_lt 0 d with hd | hd
  · rw [if_pos hd, decide_eq_true_iff, le_div_iff₀ hbq]
    have hzd : (2 : ℚ) ^ d = (2 : ℚ) ^ d.toNat := by
      rw [← zpow_natCast]
      congr 1
      omega
    rw [hzd]
    constructor
    · intro h
      have h2 : ((b * 2 ^ d.toNat : Nat) : ℚ) ≤ (a : ℚ) := by exact_mod_cast h
      push_cast at h2
      linarith
    · intro h
      have h2 : ((b * 2 ^ d.toNat : Nat) : ℚ) ≤ (a : ℚ) := by push_cast; linarith
      exact_mod_cast h2
  · rw [if_neg (not_le.mpr hd), decide_eq_true_iff]
    have hzd : (2 : ℚ) ^ d = ((2 : ℚ) ^ (-d).toNat)⁻¹ := by
      rw [← zpow_natCast, ← zpow_neg]
      congr 1
      omega
    have hp : (0 : ℚ) < (2 : ℚ) ^ (-d).toNat := by positivity
    rw [hzd, inv_eq_one_div, div_le_div_iff hp hbq, one_mul]
    constructor
    · intro h
      have h2 : ((b : Nat) : ℚ) ≤ ((a * 2 ^ (-d).toNat : Nat) : ℚ) := by exact_mod_cast h
      push_cast at h2
      linarith
    · intro h
      have h2 : ((b : Nat) : ℚ) ≤ ((a * 2 ^ (-d).toNat : Nat) : ℚ) := by push_cast; linarith
      exact_mod_cast h2

/-- The computed floor logarithm stays below the fraction: 2 ^ ratLog2 a b is at most a / b. -/
theorem ratLog2_le_self {a b : Nat} (ha : 0 < a) (hb : 0 < b) :
    (2 : ℚ) ^ ratLog2 a b ≤ (a : ℚ) / (b : ℚ) := by
  have hbq : (0 : ℚ) < (b : ℚ) := by exact_mod_cast hb
  simp only [ratLog2]
  split
  · rename_i h
    exact (twoPowLE_iff hb).mp h
  · rename_i h
    obtain ⟨hA, _⟩ := natLog2_bounds ha
    obtain ⟨_, hB⟩ := natLog2_bounds hb
    have key : (2 : ℚ) ^ ((natLog2 a : ℤ) - (natLog2 b : ℤ) - 1)
        = ((2 : ℚ) ^ natLog2 a) / ((2 : ℚ) ^ (natLog2 b + 1)) := by
      rw [show ((natLog2 a : ℤ) - (natLog2 b : ℤ) - 1)
            = (natLog2 a : ℤ) - ((natLog2 b + 1 : ℕ) : ℤ) by push_cast; ring]
      rw [zpow_sub₀ (by norm_num : (2 : ℚ) ≠ 0), zpow_natCast, zpow_natCast]
    rw [key, div_le_div_iff (by positivity) hbq]
    have h1 : (2 : ℚ) ^ natLog2 a ≤ (a : ℚ) := by exact_mod_cast hA
    have h2 : (b : ℚ) ≤ (2 : ℚ) ^ (natLog2 b + 1) := by exact_mod_cast hB.le
    exact mul_le_mul h1 h2 (Nat.cast_nonneg b) (Nat.cast_nonneg a)

/-- A power of two bounding the fraction above bounds ratLog2 as well. -/
theorem ratLog2_le_of_le {a b : Nat} {m : ℤ} (ha : 0 < a) (hb : 0 < b)
    (h : (a : ℚ) / (b : ℚ) ≤ (2 : ℚ) ^ m) : ratLog2 a b ≤ m := by
  by_contra hcon
  push_neg at hcon
  have h1 : (2 : ℚ) ^ (m + 1) ≤ (2 : ℚ) ^ ratLog2 a b :=
    zpow_le_zpow_right₀ (by norm_num) (by omega)
  have h2 := ratLog2_le_self ha hb
  have h3 : (2 : ℚ) ^ (m + 1) = 2 ^ m * 2 := zpow_add_one₀ (by norm_num) m
  have h4 : (0 : ℚ) < 2 ^ m := zpow_pos (by norm_num) m
  linarith

/-- Exact value of a significand and exponent pair as the significand scaled by a power of two. -/
theorem dVal_eq (m : Nat) (e : ℤ) : dVal (m, e) = (m : ℚ) * (2 : ℚ) ^ e := by
  simp only [dVal, dNum, dDen]
  rcases le_or_lt 0 e with h | h
  · rw [if_pos h, if_pos h]
    push_cast
    rw [div_one, ← zpow_natCast (2 : ℚ), Int.toNat_of_nonneg h]
  · rw [if_neg (not_le.mpr h), if_neg (not_le.mpr h)]
    push_cast
    rw [div_eq_mul_inv, ← zpow_natCast (2 : ℚ) ((-e).toNat),
      Int.toNat_of_nonneg (by omega : (0 : ℤ) ≤ -e), ← zpow_neg, neg_neg]

/-- Scaling a half-unit significand error by the exponent yields the absolute error bound of one rounding step. -/
theorem roundErrAux {M : Nat} {x : ℚ} {E m : ℤ}
    (hx : |(M : ℚ) - x / (2 : ℚ) ^ E| ≤ 1 / 2) (hEm : E - 1 ≤ m - 53) :
    |(M : ℚ) * (2 : ℚ) ^ E - x| ≤ (2 : ℚ) ^ (m - 53) := by
  have hpow : (0 : ℚ) < (2 : ℚ) ^ E := zpow_pos (by norm_num) E
  have step : |(M : ℚ) * (2 : ℚ) ^ E - x| = (2 : ℚ) ^ E * |(M : ℚ) - x / (2 : ℚ) ^ E| := by
    have he : (M : ℚ) * (2 : ℚ) ^ E - x = (2 : ℚ) ^ E * ((M : ℚ) - x / (2 : ℚ) ^ E) := by
      field_simp
    rw [he, abs_mul, abs_of_pos hpow]
  have h1 : (2 : ℚ) ^ E * |(M : ℚ) - x / (2 : ℚ) ^ E| ≤ (2 : ℚ) ^ E * (1 / 2) :=
    mul_le_mul_of_nonneg_left hx hpow.le
  have h2 : (2 : ℚ) ^ E * (1 / 2) = (2 : ℚ) ^ (E - 1) := by
    rw [zpow_sub₀ (by norm_num : (2 : ℚ) ≠ 0), zpow_one]
    ring
  have h3 : (2 : ℚ) ^ (E - 1) ≤ (2 : ℚ) ^ (m - 53) := zpow_le_zpow_right₀ (by norm_num) hEm
  calc |(M : ℚ) * (2 : ℚ) ^ E - x|
      = (2 : ℚ) ^ E * |(M : ℚ) - x / (2 : ℚ) ^ E| := step
    _ ≤ (2 : ℚ) ^ E * (1 / 2) := h1
    _ ≤ (2 : ℚ) ^ (m - 53) := h2 ▸ h3

/-- One binary64 rounding of a nonnegative fraction bounded by 2 ^ m is accurate to 2 ^ (m - 53). -/
theorem roundToDouble_err {a b : Nat} {m : ℤ} (hb : 0 < b)
    (h : (a : ℚ) / (b : ℚ) ≤ (2 : ℚ) ^ m) :
    |dVal (roundToDouble a b) - (a : ℚ) / (b : ℚ)| ≤ (2 : ℚ) ^ (m - 53) := by
  have hbq : (0 : ℚ) < (b : ℚ) := by exact_mod_cast hb
  rcases Nat.eq_zero_or_pos a with ha | ha
  · subst ha
    have hz : dVal (roundToDouble 0 b) = 0 := by
      simp [roundToDouble, dVal, dNum, dDen]
    rw [hz]
    simp only [Nat.cast_zero, zero_div, sub_zero, abs_zero]
    positivity
  · have hlog := ratLog2_le_of_le ha hb h
    simp only [roundToDouble]
    rw [if_neg (by omega : ¬ a = 0)]
    split
    · rename_i he
      have hB : 0 < b * 2 ^ (ratLog2 a b - 52).toNat := by positivity
      have hclose := mantissaRound_close (A := a) hB
      rw [dVal_eq]
      apply roundErrAux ?_ (by omega)
      have hBq : ((b * 2 ^ (ratLog2 a b - 52).toNat : Nat) : ℚ)
          = (b : ℚ) * (2 : ℚ) ^ (ratLog2 a b - 52) := by
        push_cast
        rw [← zpow_natCast (2 : ℚ), Int.toNat_of_nonneg he]
      have habB : ((a : ℚ)) / ((b * 2 ^ (ratLog2 a b - 52).toNat : Nat) : ℚ)
          = ((a : ℚ) / (b : ℚ)) / (2 : ℚ) ^ (ratLog2 a b - 52) := by
        rw [hBq, ← div_div]
      rw [← habB]
      exact hclose
    · rename_i he
      have hclose := mantissaRound_close (A := a * 2 ^ (-(ratLog2 a b - 52)).toNat) hb
      rw [dVal_eq]
      apply roundErrAux ?_ (by omega)
      have hzf : (2 : ℚ) ^ ((-(ratLog2 a b - 52)).toNat) = (2 : ℚ) ^ (-(ratLog2 a b - 52)) := by
        rw [← zpow_natCast]
        congr 1
        omega
      have hA2 : ((a * 2 ^ (-(ratLog2 a b - 52)).toNat : Nat) : ℚ) / (b : ℚ)
          = ((a : ℚ) / (b : ℚ)) / (2 : ℚ) ^ (ratLog2 a b - 52) := by
        push_cast
        rw [hzf, zpow_neg, div_eq_mul_inv ((a : ℚ) / (b : ℚ))]
        field_simp
        exact Or.inl (mul_comm _ _)
      rw [← hA2]
      exact hclose

/-- The double computed as (s / n) * 100 with s <= n and n positive is within 2 ^ (-44) of the exact percentage. -/
theorem jsPercent_err {s n : Nat} (hs : s ≤ n) (hn : 0 < n) :
    |dVal (jsPercent s n) - 100 * (s : ℚ) / (n : ℚ)| ≤ (2 : ℚ) ^ (-44 : ℤ) := by
  have hnq : (0 : ℚ) < (n : ℚ) := by exact_mod_cast hn
  have h1 : (s : ℚ) / (n : ℚ) ≤ (2 : ℚ) ^ (0 : ℤ) := by
    rw [zpow_zero, div_le_one hnq]
    exact_mod_cast hs
  have e1 := roundToDouble_err hn h1
  rw [show (0 : ℤ) - 53 = -53 by norm_num] at e1
  have h53 : (2 : ℚ) ^ (-53 : ℤ) = ((2 : ℚ) ^ (53 : ℕ))⁻¹ := by
    rw [show (-53 : ℤ) = -((53 : ℕ) : ℤ) by norm_num, zpow_neg, zpow_natCast]
  rw [h53] at e1
  have hden : 0 < dDen (roundToDouble s n) := by
    unfold dDen
    split
    · norm_num
    · positivity
  have hval2 : ((dNum (roundToDouble s n) * 100 : Nat) : ℚ) / (dDen (roundToDouble s n) : ℚ)
      = 100 * dVal (roundToDouble s n) := by
    unfold dVal
    push_cast
    ring
  have hd1le : dVal (roundToDouble s n) ≤ 1 + ((2 : ℚ) ^ (53 : ℕ))⁻¹ := by
    have ht := (abs_le.mp e1).2
    have hsn : (s : ℚ) / (n : ℚ) ≤ 1 := by
      rw [div_le_one hnq]
      exact_mod_cast hs
    linarith
  have hub : ((dNum (roundToDouble s n) * 100 : Nat) : ℚ) / (dDen (roundToDouble s n) : ℚ)
      ≤ (2 : ℚ) ^ (7 : ℤ) := by
    rw [hval2, show ((2 : ℚ) ^ (7 : ℤ)) = 128 by norm_num]
    have hp : ((2 : ℚ) ^ (53 : ℕ))⁻¹ ≤ 1 / 4 := by norm_num
    linarith
  have e2 := roundToDouble_err hden hub
  rw [show (7 : ℤ) - 53 = -46 by norm_num] at e2
  have h46 : (2 : ℚ) ^ (-46 : ℤ) = ((2 : ℚ) ^ (46 : ℕ))⁻¹ := by
    rw [show (-46 : ℤ) = -((46 : ℕ) : ℤ) by norm_num, zpow_neg, zpow_natCast]
  rw [h46, hval2] at e2
  have hjs : jsPercent s n = roundToDouble (dNum (roundToDouble s n) * 100)
      (dDen (roundToDouble s n)) := by
    simp only [jsPercent]
  rw [hjs]
  have h44 : (2 : ℚ) ^ (-44 : ℤ) = ((2 : ℚ) ^ (44 : ℕ))⁻¹ := by
    rw [show (-44 : ℤ) = -((44 : ℕ) : ℤ) by norm_num, zpow_neg, zpow_natCast]
  rw [h44]
  have tri : |dVal (roundToDouble (dNum (roundToDouble s n) * 100) (dDen (roundToDouble s n)))
        - 100 * (s : ℚ) / (n : ℚ)|
      ≤ |dVal (roundToDouble (dNum (roundToDouble s n) * 100) (dDen (roundToDouble s n)))
          - 100 * dVal (roundToDouble s n)|
        + |100 * dVal (roundToDouble s n) - 100 * (s : ℚ) / (n : ℚ)| := by
    have hsplit : dVal (roundToDouble (dNum (roundToDouble s n) * 100) (dDen (roundToDouble s n)))
          - 100 * (s : ℚ) / (n : ℚ)
        = (dVal (roundToDouble (dNum (roundToDouble s n) * 100) (dDen (roundToDouble s n)))
            - 100 * dVal (roundToDouble s n))
          + (100 * dVal (roundToDouble s n) - 100 * (s : ℚ) / (n : ℚ)) := by ring
    rw [hsplit]
    exact abs_add _ _
  have habs2 : |100 * dVal (roundToDouble s n) - 100 * (s : ℚ) / (n : ℚ)|
      ≤ 100 * ((2 : ℚ) ^ (53 : ℕ))⁻¹ := by
    have heq : 100 * dVal (roundToDouble s n) - 100 * (s : ℚ) / (n : ℚ)
        = 100 * (dVal (roundToDouble s n) - (s : ℚ) / (n : ℚ)) := by ring
    rw [heq, abs_mul, abs_of_pos (by norm_num : (0 : ℚ) < 100)]
    exact mul_le_mul_of_nonneg_left e1 (by norm_num)
  have hfinal : ((2 : ℚ) ^ (46 : ℕ))⁻¹ + 100 * ((2 : ℚ) ^ (53 : ℕ))⁻¹
      ≤ ((2 : ℚ) ^ (44 : ℕ))⁻¹ := by norm_num
  linarith

/-- Integer division with an added half denominator rounds to within one half of the scaled exact value. -/
theorem tenthsRound_close {mm D : Nat} (hD : 0 < D) :
    |(((10 * mm + D) / (2 * D) : Nat) : ℚ) - 10 * ((mm : ℚ) / ((2 * D : Nat) : ℚ))| ≤ 1 / 2 := by
  have hDq : (0 : ℚ) < ((2 * D : Nat) : ℚ) := by
    push_cast
    positivity
  have hdm := Nat.div_add_mod (10 * mm + D) (2 * D)
  have hr := Nat.mod_lt (10 * mm + D) (by omega : 0 < 2 * D)
  have hdmq : ((2 * D : Nat) : ℚ) * (((10 * mm + D) / (2 * D) : Nat) : ℚ)
      + (((10 * mm + D) % (2 * D) : Nat) : ℚ) = 10 * (mm : ℚ) + D := by
    exact_mod_cast hdm
  have hrq : (((10 * mm + D) % (2 * D) : Nat) : ℚ) < ((2 * D : Nat) : ℚ) := by
    exact_mod_cast hr
  have hr0 : (0 : ℚ) ≤ (((10 * mm + D) % (2 * D) : Nat) : ℚ) := by positivity
  have hcast : ((2 * D : Nat) : ℚ) = 2 * (D : ℚ) := by push_cast; ring
  have hkey : (((10 * mm + D) / (2 * D) : Nat) : ℚ) - 10 * ((mm : ℚ) / ((2 * D : Nat) : ℚ))
      = ((((10 * mm + D) / (2 * D) : Nat) : ℚ) * ((2 * D : Nat) : ℚ) - 10 * (mm : ℚ))
        / ((2 * D : Nat) : ℚ) := by
    field_simp
  rw [hkey, abs_div, abs_of_pos hDq, div_le_iff hDq]
  have habs : |(((10 * mm + D) / (2 * D) : Nat) : ℚ) * ((2 * D : Nat) : ℚ) - 10 * (mm : ℚ)|
      ≤ (D : ℚ) := by
    rw [abs_le]
    constructor <;> nlinarith [hdmq, hrq, hr0, hcast]
  calc |(((10 * mm + D) / (2 * D) : Nat) : ℚ) * ((2 * D : Nat) : ℚ) - 10 * (mm : ℚ)|
      ≤ (D : ℚ) := habs
    _ = 1 / 2 * ((2 * D : Nat) : ℚ) := by push_cast; ring

/-- The tenths integer of the toFixed model is within one half of ten times the exact double value. -/
theorem jsPercentTenths_close (s n : Nat) :
    |(jsPercentTenths s n : ℚ) - 10 * dVal (jsPercent s n)| ≤ 1 / 2 := by
  simp only [jsPercentTenths]
  split
  · rename_i he
    have hden : dDen (jsPercent s n) = 1 := by
      unfold dDen
      rw [if_pos he]
    have hnum : dVal (jsPercent s n) = (dNum (jsPercent s n) : ℚ) := by
      unfold dVal
      rw [hden]
      push_cast
      rw [div_one]
    rw [hnum]
    push_cast
    rw [sub_self, abs_zero]
    norm_num
  · rename_i he
    obtain ⟨F, hF⟩ : ∃ F, (-(jsPercent s n).2).toNat = F + 1 :=
      ⟨(-(jsPercent s n).2).toNat - 1, by omega⟩
    have hFsplit : 2 ^ (-(jsPercent s n).2).toNat = 2 * 2 ^ F := by
      rw [hF, pow_succ]
      ring
    have hhalf : 2 ^ (-(jsPercent s n).2).toNat / 2 = 2 ^ F := by omega
    have hdval : dVal (jsPercent s n) = ((jsPercent s n).1 : ℚ) / ((2 * 2 ^ F : Nat) : ℚ) := by
      simp only [dVal, dNum, dDen]
      rw [if_neg he, if_neg he, hFsplit]
    rw [hdval, hhalf, hFsplit]
    exact tenthsRound_close (Nat.pos_pow_of_pos F (by norm_num))

/-- For up to 1000 requests the rendered percentage digits come from an integer t with t / 10 within 1 / 20 of the exact percentage 100 * s / n: the string is the exact success ratio rounded to one decimal place, with ties placed as the binary64 pipeline places them. -/
theorem toFixed1_rounds {s n : Nat} (hs : s ≤ n) (h1 : 1 ≤ n) (h2 : n ≤ 1000) :
    ∃ t : Nat, toFixed1Percent s n = toString (t / 10) ++ "." ++ toString (t % 10) ++ "%" ∧
      |(t : ℚ) / 10 - 100 * (s : ℚ) / (n : ℚ)| ≤ 1 / 20 := by
  refine ⟨jsPercentTenths s n, rfl, ?_⟩
  have hnq : (0 : ℚ) < (n : ℚ) := by exact_mod_cast h1
  have hA := jsPercentTenths_close s n
  have hB := jsPercent_err hs h1
  have h44 : (2 : ℚ) ^ (-44 : ℤ) = ((2 : ℚ) ^ (44 : ℕ))⁻¹ := by
    rw [show (-44 : ℤ) = -((44 : ℕ) : ℤ) by norm_num, zpow_neg, zpow_natCast]
  rw [h44] at hB
  have htri : |(jsPercentTenths s n : ℚ) - 1000 * (s : ℚ) / (n : ℚ)|
      ≤ 1 / 2 + 10 * ((2 : ℚ) ^ (44 : ℕ))⁻¹ := by
    have e1 : (jsPercentTenths s n : ℚ) - 1000 * (s : ℚ) / (n : ℚ)
        = ((jsPercentTenths s n : ℚ) - 10 * dVal (jsPercent s n))
          + 10 * (dVal (jsPercent s n) - 100 * (s : ℚ) / (n : ℚ)) := by ring
    have e2 : |10 * (dVal (jsPercent s n) - 100 * (s : ℚ) / (n : ℚ))|
        ≤ 10 * ((2 : ℚ) ^ (44 : ℕ))⁻¹ := by
      rw [abs_mul, abs_of_pos (by norm_num : (0 : ℚ) < 10)]
      exact mul_le_mul_of_nonneg_left hB (by norm_num)
    calc |(jsPercentTenths s n : ℚ) - 1000 * (s : ℚ) / (n : ℚ)|
        ≤ |(jsPercentTenths s n : ℚ) - 10 * dVal (jsPercent s n)|
          + |10 * (dVal (jsPercent s n) - 100 * (s : ℚ) / (n : ℚ))| := by
          rw [e1]
          exact abs_add _ _
      _ ≤ 1 / 2 + 10 * ((2 : ℚ) ^ (44 : ℕ))⁻¹ := by linarith
  obtain ⟨k, hkq⟩ : ∃ k : ℤ, (k : ℚ) = (jsPercentTenths s n : ℚ) * n - 1000 * s :=
    ⟨(jsPercentTenths s n : ℤ) * n - 1000 * s, by push_cast; ring⟩
  have hkb : |(k : ℚ)| ≤ (n : ℚ) / 2 + 10 * n * ((2 : ℚ) ^ (44 : ℕ))⁻¹ := by
    rw [hkq]
    have hfac : (jsPercentTenths s n : ℚ) * n - 1000 * s
        = (n : ℚ) * ((jsPercentTenths s n : ℚ) - 1000 * s / n) := by
      field_simp
    rw [hfac, abs_mul, abs_of_pos hnq]
    calc (n : ℚ) * |(jsPercentTenths s n : ℚ) - 1000 * (s : ℚ) / (n : ℚ)|
        ≤ (n : ℚ) * (1 / 2 + 10 * ((2 : ℚ) ^ (44 : ℕ))⁻¹) :=
          mul_le_mul_of_nonneg_left htri hnq.le
      _ = (n : ℚ) / 2 + 10 * n * ((2 : ℚ) ^ (44 : ℕ))⁻¹ := by ring
  have hsmall : 10 * (n : ℚ) * ((2 : ℚ) ^ (44 : ℕ))⁻¹ < 1 / 2 := by
    have hn1000 : (n : ℚ) ≤ 1000 := by exact_mod_cast h2
    have hp : (0 : ℚ) < ((2 : ℚ) ^ (44 : ℕ))⁻¹ := by positivity
    have hmono : 10 * (n : ℚ) * ((2 : ℚ) ^ (44 : ℕ))⁻¹
        ≤ 10 * 1000 * ((2 : ℚ) ^ (44 : ℕ))⁻¹ := by
      apply mul_le_mul_of_nonneg_right ?_ hp.le
      linarith
    have hnum : 10 * (1000 : ℚ) * ((2 : ℚ) ^ (44 : ℕ))⁻¹ < 1 / 2 := by norm_num
    linarith
  have hint : 2 * |k| ≤ (n : ℤ) := by
    have hcast : ((2 * |k| : ℤ) : ℚ) < ((n : ℤ) : ℚ) + 1 := by
      push_cast
      have habs : |(k : ℚ)| < (n : ℚ) / 2 + 1 / 2 := lt_of_le_of_lt hkb (by linarith)
      linarith
    have hlt : (2 * |k| : ℤ) < (n : ℤ) + 1 := by exact_mod_cast hcast
    omega
  have hfin : (jsPercentTenths s n : ℚ) / 10 - 100 * (s : ℚ) / (n : ℚ) = (k : ℚ) / (10 * n) := by
    rw [hkq]
    field_simp
    ring
  rw [hfin, abs_div, abs_of_pos (by positivity : (0 : ℚ) < 10 * (n : ℚ)),
    div_le_iff (by positivity : (0 : ℚ) < 10 * (n : ℚ))]
  have hkle : |(k : ℚ)| ≤ (n : ℚ) / 2 := by
    have hc : ((2 * |k| : ℤ) : ℚ) ≤ ((n : ℤ) : ℚ) := by exact_mod_cast hint
    push_cast at hc
    linarith
  calc |(k : ℚ)| ≤ (n : ℚ) / 2 := hkle
    _ = 1 / 20 * (10 * (n : ℚ)) := by ring

/-- The model reproduces the double-rounding case 23 / 80, where the exact
percentage 28.75 lands just below the rational tie after the binary64
division and multiplication, so toFixed(1) renders 28.7 rather than 28.8. -/
theorem toFixed1Percent_23_80 : toFixed1Percent 23 80 = "28.7%" := by decide

/-- The model reproduces the representable tie 1 / 16: the double holds
6.25 percent exactly and toFixed(1) takes the larger digit, rendering 6.3. -/
theorem toFixed1Percent_1_16 : toFixed1Percent 1 16 = "6.3%" := by decide

/-- C7: for a nonempty request list within the configured maximum batch
size, batchCreate succeeds; the successes are exactly the transactions
created from the valid requests in order (one success per valid request),
the K failure entries echo each invalid request at its original index
together with the thrown message, and the summary reports total = N,
success = N - K, failed = K and successRate the string the program
renders by computing ((N - K) / N) * 100 in binary64 and formatting it
with toFixed(1); for batches of at most 1000 requests that string shows
the success percentage rounded to one decimal place, its digits t
satisfying that t / 10 is within 1 / 20 of the exact percentage. -/
theorem c7_batch_create : ∀ (maxB : Nat) (reqs : List CreateTransactionRequest),
    0 < reqs.length → reqs.length ≤ maxB →
    ∃ res, batchCreate maxB reqs = .ok res ∧
      res.successful = reqs.filterMap (fun r => (createTransaction r).toOption) ∧
      res.successful.length = (reqs.filter createOk).length ∧
      res.failed.length = (reqs.filter (fun r => !createOk r)).length ∧
      res.successful.length + res.failed.length = reqs.length ∧
      (∀ entry ∈ res.failed, reqs[entry.index]? = some entry.request ∧
        createTransaction entry.request = .error entry.error) ∧
      res.summary.total = reqs.length ∧
      res.summary.success = res.successful.length ∧
      res.summary.failed = res.failed.length ∧
      res.summary.successRate = toFixed1Percent res.successful.length reqs.length ∧
      (reqs.length ≤ 1000 →
        ∃ t : Nat, res.summary.successRate
            = toString (t / 10) ++ "." ++ toString (t % 10) ++ "%" ∧
          |(t : ℚ) / 10 - 100 * (res.successful.length : ℚ) / (reqs.length : ℚ)| ≤ 1 / 20) := by
  intro maxB reqs hpos hle
  obtain ⟨h0, h1, h2, h3⟩ := batchCreateItems_anatomy reqs 0
  refine ⟨{ successful := (batchCreateItems 0 reqs).1
            failed := (batchCreateItems 0 reqs).2
            summary :=
              { total := reqs.length
                success := (batchCreateItems 0 reqs).1.length
                failed := (batchCreateItems 0 reqs).2.length
                successRate :=
                  toFixed1Percent (batchCreateItems 0 reqs).1.length reqs.length } },
    ?_, h0, h1, h2, ?_, ?_, rfl, rfl, rfl, rfl, ?_⟩
  · unfold batchCreate
    rw [if_neg (by omega)]
  · rw [h1, h2]
    exact filter_split_length createOk reqs
  · intro entry hentry
    obtain ⟨_, hget, herr⟩ := h3 entry hentry
    simpa using ⟨hget, herr⟩
  · intro h1000
    exact toFixed1_rounds (by rw [h1]; exact List.length_filter_le _ _) hpos h1000

/-- Witness for C7 on a two-request batch with one invalid request. -/
theorem c7_witness :
    ∃ res, batchCreate 100 [reqFixtureOk, reqFixtureBad] = .ok res ∧
      res.summary.total = 2 ∧ res.summary.success = 1 ∧
      res.summary.failed = 1 ∧ res.summary.successRate = "50.0%" := by
  obtain ⟨res, hok, h0, h1, h2, h3, h4, h5, h6, h7, h8, h9⟩ :=
    c7_batch_create 100 [reqFixtureOk, reqFixtureBad] (by decide) (by decide)
  refine ⟨res, hok, h5, ?_, ?_, ?_⟩
  · rw [h6, h1]; decide
  · rw [h7, h2]; decide
  · rw [h8, h1]; decide

/-- C8: when a webhook has a configured secret, the X-Webhook-Signature
header of a delivery is exactly the hex HMAC-SHA256 of the serialized
envelope under that secret, and recomputing the HMAC over a byte-identical
envelope with the same secret reproduces the signature (the signature
function is deterministic). -/
theorem c8_signature : ∀ (wh : Webhook) (event timestamp payloadJson secret : String),
    wh.secret = some secret →
    (webhookHeaders wh event timestamp payloadJson).lookup "X-Webhook-Signature" =
      some (generateSignature (serializeEnvelope event timestamp payloadJson) secret) ∧
    ∀ m1 m2 : String, m1 = m2 →
      generateSignature m1 secret = generateSignature m2 secret := by
  intro wh event timestamp payloadJson secret hsec
  constructor
  · unfold webhookHeaders
    rw [hsec]
    rfl
  · intro m1 m2 h
    rw [h]

/-- Witness for C8 on a concrete webhook with a secret. -/
theorem c8_witness :
    webhookFixture.secret = some "hook-secret" ∧
    (webhookHeaders webhookFixture "transaction.completed"
        "2026-10-12T00:00:00.000Z" "\x7b\x7d").lookup "X-Webhook-Signature" =
      some (generateSignature (serializeEnvelope "transaction.completed"
        "2026-10-12T00:00:00.000Z" "\x7b\x7d") "hook-secret") :=
  ⟨rfl, (c8_signature webhookFixture "transaction.completed"
    "2026-10-12T00:00:00.000Z" "\x7b\x7d" "hook-secret" rfl).1⟩
